import Mathlib

/-! # Gossip topology manager (gossip/gossip.go)

A shallow embedding of the gossip instance of `gossip/gossip.go`: the typed
info getters, `maxToleratedHops`, `parseBootstrapAddresses`, `filterExtant`,
one iteration of the `bootstrap` loop, one event of the `manage` loop,
`startClient`, `closeClient`, `Close` and `New`.

The address set, the info store and the client type live in other files of
the package; they are modelled from the specification (sections 3, 4.1, 4.2
and 4.4) and marked as such.

Conventions.
* An endpoint is identified with its canonical string form (`addr.String()`).
* A function that can panic (nil dereference, failed type assertion) or end
  the process (`log.Fatalf`) returns `Option`; `none` is the panic or exit.
* The clock reading used by the info store is the explicit argument `now`.
* A random choice is the explicit argument `r`.
* The effects a step has on the outside (a client goroutine launched, a
  client closed, the stalled condition signalled) are appended to the ghost
  field `events` of the state.
-/

namespace gossip

/-! ## Constants -/

/-- The sentinel key, `SentinelGossip`. -/
def SentinelGossip : String := "meta0"

/-- The node count key, `NodeCountGossip`. -/
def NodeCountGossip : String := "nodeCount"

/-- The fan-out cap, `MaxPeers`. -/
def MaxPeers : Nat := 10

/-- The node count assumed while none has been gossiped, `defaultNodeCount`. -/
def defaultNodeCount : Int := 1000

/-! ## Address set -/

/-- An endpoint, identified with its canonical string form. -/
abbrev Addr := String

/-- Modelled from the spec: the address set type `addrSet` (section 4.1), a
collection of endpoints with a maximum cardinality. -/
structure AddrSet where
  addrs : List Addr
  maxSize : Nat
deriving DecidableEq, Repr

/-- Modelled from the spec: `newAddrSet(maxSize)`, the empty set. -/
def newAddrSet (maxSize : Nat) : AddrSet := { addrs := [], maxSize := maxSize }

namespace AddrSet

/-- Modelled from the spec: `has(a)`. -/
def hasAddr (s : AddrSet) (a : Addr) : Bool := decide (a ∈ s.addrs)

/-- Modelled from the spec: `len()`. -/
def len (s : AddrSet) : Nat := s.addrs.length

/-- Modelled from the spec: `add(a)`, a no-op if already present and a no-op
if at capacity. -/
def addAddr (s : AddrSet) (a : Addr) : AddrSet :=
  if s.hasAddr a then s
  else if s.maxSize ≤ s.len then s
  else { s with addrs := s.addrs ++ [a] }

/-- Modelled from the spec: `remove(a)`. -/
def removeAddr (s : AddrSet) (a : Addr) : AddrSet :=
  { s with addrs := s.addrs.filter (fun b => decide (b ≠ a)) }

/-- Modelled from the spec: `filter(pred)`, a new set of the members that
satisfy `pred`. -/
def filter (s : AddrSet) (pred : Addr → Bool) : AddrSet :=
  { s with addrs := s.addrs.filter pred }

/-- Modelled from the spec: `asSlice()`, a snapshot of the members. -/
def asSlice (s : AddrSet) : List Addr := s.addrs

/-- Modelled from the spec: `selectRandom()`, some member chosen by the random
number `r`; undefined (`none`) on the empty set. -/
def selectRandom (s : AddrSet) (r : Nat) : Option Addr :=
  s.addrs[r % s.addrs.length]?

end AddrSet

/-! ## Info store -/

/-- The tagged value of an info record: int64, float64 (kept as its IEEE bit
pattern) or string. -/
inductive Value where
  | int64 (v : Int)
  | float64 (bits : Nat)
  | string (s : String)
deriving DecidableEq, Repr

/-- Modelled from the spec: the info record (section 3). -/
structure Info where
  key : String
  val : Value
  timestamp : Int
  ttl : Int
  seq : Int
  hops : Nat
  nodeAddr : Addr
  peerAddr : Option Addr
deriving DecidableEq, Repr

/-- Modelled from the spec: a record with a non-zero ttl is absent once
`now ≥ timestamp + ttl`. -/
def Info.expired (i : Info) (now : Int) : Bool :=
  decide (i.ttl ≠ 0) && decide (i.timestamp + i.ttl ≤ now)

/-- Modelled from the spec: the info store (section 4.2), the records it holds
(the first record with a key is the one the key maps to) and the endpoint of
this node. -/
structure InfoStore where
  Infos : List Info
  NodeAddr : Addr
deriving DecidableEq, Repr

namespace InfoStore

/-- Modelled from the spec: `getInfo(key)`, nil for an unknown or expired
key; it does not delete. -/
def getInfo (s : InfoStore) (key : String) (now : Int) : Option Info :=
  match s.Infos.find? (fun i => decide (i.key = key)) with
  | some i => if i.expired now then none else some i
  | none => none

/-- Modelled from the spec: `distant(threshold)`, the set of originating
endpoints of the records whose hops exceed the threshold. -/
def distant (s : InfoStore) (maxHops : Nat) : AddrSet :=
  (s.Infos.filter (fun i => decide (maxHops < i.hops))).foldl
    (fun acc i => acc.addAddr i.nodeAddr) (newAddrSet MaxPeers)

/-- The number of records held that `a` originated. -/
def originated (s : InfoStore) (a : Addr) : Nat :=
  (s.Infos.filter (fun i => decide (i.nodeAddr = a))).length

/-- The first member of `l` that originated the fewest records, starting from
the candidate `best`. -/
def leastOf (s : InfoStore) (best : Addr) : List Addr → Addr
  | [] => best
  | a :: l => if s.originated a < s.originated best then leastOf s a l else leastOf s best l

/-- Modelled from the spec: `leastUseful(candidates)`, the candidate that
originated the fewest records held locally; nil for no candidate. -/
def leastUseful (s : InfoStore) (candidates : AddrSet) : Option Addr :=
  match candidates.addrs with
  | [] => none
  | a :: l => some (s.leastOf a l)

end InfoStore

/-! ## Clients and the gossip instance -/

/-- Modelled from the spec: the outgoing session `client` (section 4.4).
`rpcClient` says whether the embedded transport handle `c.Client` is non-nil. -/
structure Client where
  addr : Addr
  forwardAddr : Option Addr
  err : Option String
  rpcClient : Bool
deriving DecidableEq, Repr

/-- Modelled from the spec: `newClient(addr)`, a session that has not dialled
yet: no transport handle, no forwarding address, no error. -/
def newClient (addr : Addr) : Client :=
  { addr := addr, forwardAddr := none, err := none, rpcClient := false }

/-- The Go map `map[string]*client`, as an association list. -/
abbrev ClientMap := List (String × Client)

namespace ClientMap

/-- The map read `m[k]`; `none` is the nil pointer of a missing key. -/
def get (m : ClientMap) (k : String) : Option Client :=
  match m with
  | [] => none
  | (k', c) :: rest => if k' = k then some c else get rest k

/-- The builtin `delete(m, k)`. -/
def delete (m : ClientMap) (k : String) : ClientMap :=
  m.filter (fun p => decide (p.1 ≠ k))

/-- The map write `m[k] = c`. -/
def set (m : ClientMap) (k : String) (c : Client) : ClientMap :=
  (k, c) :: delete m k

end ClientMap

/-- An effect of a step on the outside of the instance. -/
inductive Event where
  | clientStarted (addr : Addr)
  | clientClosed (addr : Addr)
  | stalledSignal
  | exitSent
deriving DecidableEq, Repr

/-- The gossip instance `Gossip` with the fields of its embedded server that
this file reads (`is`, `incoming`, `closed`). `exited` is the exit channel:
`none` is the nil channel, `some q` an initialised channel holding `q`.
`events` is the ghost trace of effects. -/
structure Gossip where
  is : InfoStore
  incoming : AddrSet
  closed : Bool
  bootstraps : AddrSet
  outgoing : AddrSet
  clients : ClientMap
  exited : Option (List (Option String))
  events : List Event
deriving DecidableEq, Repr

/-- The constructor `New(addr)`; the exit channel is not made. -/
def New (addr : Addr) : Gossip :=
  { is := { Infos := [], NodeAddr := addr }
    incoming := newAddrSet MaxPeers
    closed := false
    bootstraps := newAddrSet MaxPeers
    outgoing := newAddrSet MaxPeers
    clients := []
    exited := none
    events := [] }

namespace Gossip

/-- The method `SetBootstrap(bootstraps)`. -/
def SetBootstrap (g : Gossip) (bootstraps : List Addr) : Gossip :=
  { g with bootstraps := bootstraps.foldl (fun acc a => acc.addAddr a) g.bootstraps }

/-! ### Typed getters -/

/-- The method `getInfo(key)`: the value of the record, or an error. The
second component is the instance after the call. -/
def getInfo (g : Gossip) (key : String) (now : Int) : (Option Value × Option String) × Gossip :=
  match g.is.getInfo key now with
  | some i => ((some i.val, none), g)
  | none => ((none, some "key does not exist or has expired"), g)

/-- The method `GetInt64Info(key)`. -/
def GetInt64Info (g : Gossip) (key : String) (now : Int) : (Int × Option String) × Gossip :=
  match g.getInfo key now with
  | ((_, some err), g1) => ((0, some err), g1)
  | ((some (Value.int64 t), none), g1) => ((t, none), g1)
  | ((_, none), g1) => ((0, some "key is of another type"), g1)

/-- The method `GetFloat64Info(key)`; a float64 is its bit pattern, and the
zero value is the pattern 0. -/
def GetFloat64Info (g : Gossip) (key : String) (now : Int) : (Nat × Option String) × Gossip :=
  match g.getInfo key now with
  | ((_, some err), g1) => ((0, some err), g1)
  | ((some (Value.float64 t), none), g1) => ((t, none), g1)
  | ((_, none), g1) => ((0, some "key is of another type"), g1)

/-- The method `GetStringInfo(key)`. -/
def GetStringInfo (g : Gossip) (key : String) (now : Int) : (String × Option String) × Gossip :=
  match g.getInfo key now with
  | ((_, some err), g1) => (("", some err), g1)
  | ((some (Value.string t), none), g1) => ((t, none), g1)
  | ((_, none), g1) => (("", some "key is of another type"), g1)

/-! ### maxToleratedHops -/

end Gossip

/-- The conversion `float64(n)` of a natural number: the nearest number with
a 53-bit significand, ties to the even significand. -/
def float64OfNat (n : Nat) : Nat :=
  if n < 2 ^ 53 then n
  else
    let sh := Nat.log2 n - 52
    let q := n / 2 ^ sh
    let r := n % 2 ^ sh
    let half := 2 ^ (sh - 1)
    let q1 := if half < r ∨ (r = half ∧ q % 2 = 1) then q + 1 else q
    q1 * 2 ^ sh

/-- The conversion `float64(n)` of an int64; the result is an integer-valued
float64, kept as the integer it denotes. -/
def float64OfInt (n : Int) : Int :=
  if 0 ≤ n then (float64OfNat n.toNat : Int) else -(float64OfNat (-n).toNat : Int)

/-! ## float64 arithmetic and math.Log -/

/-- Evaluation of a natural number before it is used. -/
def force {α : Type} (x : Nat) (k : Nat → α) : α :=
  match x with
  | 0 => k 0
  | n + 1 => k (n + 1)

/-- One step of the binary search for the number of binary digits: when `n`
has more than `k` digits, `k` of them are cut off and counted. -/
def ilogStep (k n : Nat) (cont : Nat → Nat) : Nat :=
  bif Nat.ble (2 ^ k) n then cont (n / 2 ^ k) + k else cont n

/-- The number of binary digits of `n`. -/
def bitLen (n : Nat) : Nat :=
  bif Nat.beq n 0 then 0 else bif Nat.ble (2 ^ 1024) n then Nat.log2 n + 1 else
    ilogStep 512 n fun n => ilogStep 256 n fun n => ilogStep 128 n fun n =>
    ilogStep 64 n fun n => ilogStep 32 n fun n => ilogStep 16 n fun n =>
    ilogStep 8 n fun n => ilogStep 4 n fun n => ilogStep 2 n fun n =>
    ilogStep 1 n fun _ => 1

/-- The float64 nearest to the rational `n / d` (`d` positive), ties to the
even significand: the quotient is computed with at least 55 binary digits and
a sticky remainder, then cut to 53 digits. The exponent range of float64 is not
modelled. -/
def rndNat (n d : Nat) : ℚ :=
  let t := 54 + bitLen d
  let fl := n * 2 ^ t / d
  let r := n * 2 ^ t % d
  let sh := bitLen fl - 53
  let qt := fl / 2 ^ sh
  let rem := fl % 2 ^ sh * d + r
  let half := 2 ^ (sh - 1) * d
  let N := if half < rem ∨ (rem = half ∧ qt % 2 = 1) then qt + 1 else qt
  mkRat ((N * 2 ^ sh : Nat) : Int) (2 ^ t)

/-- Rounding of a rational to the nearest float64, ties to even (the IEEE 754
default mode, which Go uses). -/
def rnd (q : ℚ) : ℚ :=
  force q.num.natAbs fun n => force q.den fun d =>
  if q.num < 0 then -rndNat n d else rndNat n d

/-- The float64 sum. -/
def fadd (a b : ℚ) : ℚ := rnd (a + b)

/-- The float64 difference. -/
def fsub (a b : ℚ) : ℚ := rnd (a - b)

/-- The float64 product. -/
def fmul (a b : ℚ) : ℚ := rnd (a * b)

/-- The float64 quotient. -/
def fdiv (a b : ℚ) : ℚ := rnd (a / b)

/-- Constant `Ln2Hi` of math/log.go, 6.93147180369123816490e-01 (0x3fe62e42fee00000). -/
def Ln2Hi : ℚ := mkRat 0x162e42fee00000 (2 ^ 53)

/-- Constant `Ln2Lo` of math/log.go, 1.90821492927058770002e-10 (0x3dea39ef35793c76). -/
def Ln2Lo : ℚ := mkRat 0x1a39ef35793c76 (2 ^ 85)

/-- Constant `L1` of math/log.go (0x3FE5555555555593). -/
def L1 : ℚ := mkRat 0x15555555555593 (2 ^ 53)

/-- Constant `L2` of math/log.go (0x3FD999999997FA04). -/
def L2 : ℚ := mkRat 0x1999999997FA04 (2 ^ 54)

/-- Constant `L3` of math/log.go (0x3FD2492494229359). -/
def L3 : ℚ := mkRat 0x12492494229359 (2 ^ 54)

/-- Constant `L4` of math/log.go (0x3FCC71C51D8E78AF). -/
def L4 : ℚ := mkRat 0x1C71C51D8E78AF (2 ^ 55)

/-- Constant `L5` of math/log.go (0x3FC7466496CB03DE). -/
def L5 : ℚ := mkRat 0x17466496CB03DE (2 ^ 55)

/-- Constant `L6` of math/log.go (0x3FC39A09D078C69F). -/
def L6 : ℚ := mkRat 0x139A09D078C69F (2 ^ 55)

/-- Constant `L7` of math/log.go (0x3FC2F112DF3E5244). -/
def L7 : ℚ := mkRat 0x12F112DF3E5244 (2 ^ 55)

/-- The float64 value of the constant `Sqrt2 / 2` (0x3FE6A09E667F3BCD). -/
def Sqrt2Half : ℚ := mkRat 0x16A09E667F3BCD (2 ^ 53)

/-- The body of `math.Log` after the argument reduction: `f` is the reduced
argument and `k` the binary exponent.
```go
s := f / (2 + f)
s2 := s * s
s4 := s2 * s2
t1 := s2 * (L1 + s4*(L3+s4*(L5+s4*L7)))
t2 := s4 * (L2 + s4*(L4+s4*L6))
R := t1 + t2
hfsq := 0.5 * f * f
return k*Ln2Hi - ((hfsq - (s*(hfsq+R) + k*Ln2Lo)) - f)
```
-/
def logTail (f k : ℚ) : ℚ :=
  let s := fdiv f (fadd 2 f)
  let s2 := fmul s s
  let s4 := fmul s2 s2
  let t1 := fmul s2 (fadd L1 (fmul s4 (fadd L3 (fmul s4 (fadd L5 (fmul s4 L7))))))
  let t2 := fmul s4 (fadd L2 (fmul s4 (fadd L4 (fmul s4 L6))))
  let R := fadd t1 t2
  let hfsq := fmul (fmul (1 / 2) f) f
  fsub (fmul k Ln2Hi) (fsub (fsub hfsq (fadd (fmul s (fadd hfsq R)) (fmul k Ln2Lo))) f)

/-- The fraction of `math.Frexp(x)` for a positive integer float64 `x`: the
value in `[1/2, 1)` with `x = frac * 2 ^ bitLen x`. -/
def frexpFrac (x : Nat) : ℚ := mkRat x (2 ^ bitLen x)

/-- `math.Log(x)` for a float64 `x` that is a positive integer, following the
portable implementation of math/log.go, every operation rounded on its own:
```go
f1, ki := Frexp(x)
if f1 < Sqrt2/2 {
    f1 *= 2
    ki--
}
f := f1 - 1
k := float64(ki)
```
-/
def Log (x : Nat) : ℚ :=
  if frexpFrac x < Sqrt2Half then logTail (fsub (fmul (frexpFrac x) 2) 1) ((bitLen x : ℚ) - 1)
  else logTail (fsub (frexpFrac x) 1) (bitLen x : ℚ)

/-- The standard library part of `maxToleratedHops` at the float64 `x` (an
integer, as `float64(nodeCount)` is):
`uint32(math.Ceil(math.Log(x) / math.Log(float64(MaxPeers))))`, with `Log`
and the division in float64 arithmetic; `math.Ceil` is exact. For `x ≤ 0`
`math.Log` gives `-Inf` or `NaN` and the conversion to uint32 is
implementation-dependent in Go: the value 0 stands for it here. -/
def ceilLogRatioF64 (x : Int) : Nat :=
  if x ≤ 0 then 0 else (⌈fdiv (Log x.toNat) (Log MaxPeers)⌉).toNat

namespace Gossip

/-- The method `maxToleratedHops()`. The argument `ceilLogRatio x` stands for
the standard library part, `uint32(math.Ceil(math.Log(x)/math.Log(float64(MaxPeers))))`
evaluated in float64 arithmetic at the float64 `x`; `ceilLogRatioF64` is that
part as Go's math package computes it. A `nodeCount` record that does not hold
an int64 fails the type assertion: `none`. -/
def maxToleratedHops (ceilLogRatio : Int → Nat) (g : Gossip) (now : Int) : Option Nat :=
  match g.is.getInfo NodeCountGossip now with
  | none => some ((ceilLogRatio (float64OfInt defaultNodeCount) % 2 ^ 32 * 2 + 1) % 2 ^ 32)
  | some info =>
    match info.val with
    | Value.int64 nodeCount =>
      some ((ceilLogRatio (float64OfInt nodeCount) % 2 ^ 32 * 2 + 1) % 2 ^ 32)
    | _ => none

/-! ### Bootstrap -/

/-- The first block of `parseBootstrapAddresses()`: the addresses of the flag
`gossipBootstrap` that resolve are added to the bootstrap set. `split` stands
for `strings.Split(·, ",")` and `resolve` for `strings.TrimSpace` followed by
`net.ResolveTCPAddr`, `none` being its error. -/
def addFlagAddresses (split : String → List String) (resolve : String → Option Addr)
    (gossipBootstrap : String) (bootstraps : AddrSet) : AddrSet :=
  if gossipBootstrap ≠ "" then
    (split gossipBootstrap).foldl
      (fun acc addr =>
        match resolve addr with
        | none => acc
        | some tcpAddr => acc.addAddr tcpAddr)
      bootstraps
  else bootstraps

/-- The method `parseBootstrapAddresses()`: the flag is read, then the set is
tested for emptiness, then the own address is removed. The fatal exit of
`log.Fatalf` is `none`. -/
def parseBootstrapAddresses (split : String → List String) (resolve : String → Option Addr)
    (gossipBootstrap : String) (g : Gossip) : Option Gossip :=
  let bs := addFlagAddresses split resolve gossipBootstrap g.bootstraps
  if bs.len = 0 then none
  else some { g with bootstraps := bs.removeAddr g.is.NodeAddr }

/-- The method `filterExtant(addrs)`. -/
def filterExtant (g : Gossip) (addrs : AddrSet) : AddrSet :=
  (addrs.filter (fun a => !g.outgoing.hasAddr a)).filter (fun a => !g.incoming.hasAddr a)

/-- The method `startClient(addr)`; the launch of the client goroutine is the
event `clientStarted addr`. -/
def startClient (g : Gossip) (addr : Addr) : Gossip :=
  { g with
    outgoing := g.outgoing.addAddr addr
    clients := g.clients.set addr (newClient addr)
    events := g.events ++ [Event.clientStarted addr] }

/-- The method `closeClient(addr)`. A missing map entry is a nil pointer,
whose field read panics: `none`. The call `c.Close()` is the event
`clientClosed addr`. -/
def closeClient (g : Gossip) (addr : Addr) : Option Gossip :=
  match g.clients.get addr with
  | none => none
  | some c =>
    some { g with
      clients := g.clients.delete addr
      events := if c.rpcClient then g.events ++ [Event.clientClosed addr] else g.events }

/-- One iteration of the loop of `bootstrap()`, from taking the mutex to the
wait on `stalled`. The flag of the result says whether the loop is left
(`break` on a closed instance). -/
def bootstrapIter (g : Gossip) (now : Int) (r : Nat) : Option (Gossip × Bool) :=
  if g.closed then some (g, true)
  else
    let avail := g.filterExtant g.bootstraps
    if 0 < avail.len then
      let haveClients := decide (0 < g.outgoing.len)
      let haveSentinel := (g.is.getInfo SentinelGossip now).isSome
      if !haveClients || !haveSentinel then
        match avail.selectRandom r with
        | none => none
        | some addr => some (g.startClient addr, false)
      else some (g, false)
    else some (g, false)

/-! ### Manage -/

end Gossip

/-- What the `select` of `manage()` received: a client from the `disconnected`
channel, or a tick of `checkTimeout`. -/
inductive ManageEvent where
  | disconnected (c : Client)
  | checkTimeout
deriving DecidableEq, Repr

namespace Gossip

/-- The filter of the tick, `g.clients[a.String()].Client != nil`, over the
outgoing set; an outgoing address without a map entry is a nil dereference:
`none`. -/
def connectedOutgoing (g : Gossip) : Option AddrSet :=
  if g.outgoing.addrs.all (fun a => (g.clients.get a).isSome) then
    some (g.outgoing.filter (fun a =>
      match g.clients.get a with
      | some c => c.rpcClient
      | none => false))
  else none

/-- The body of the case that `select` chose in `manage()`. -/
def manageCase (ceilLogRatio : Int → Nat) (g : Gossip) (now : Int) (r : Nat) :
    ManageEvent → Option Gossip
  | ManageEvent.disconnected c =>
    let g1 := { g with
      outgoing := g.outgoing.removeAddr c.addr
      clients := g.clients.delete c.addr }
    match c.forwardAddr with
    | some forwardAddr => some (g1.startClient forwardAddr)
    | none => some g1
  | ManageEvent.checkTimeout =>
    match g.maxToleratedHops ceilLogRatio now with
    | none => none
    | some h =>
      let distant := g.filterExtant (g.is.distant h)
      if 0 < distant.len then
        if g.outgoing.len < MaxPeers then
          match distant.selectRandom r with
          | none => none
          | some addr => some (g.startClient addr)
        else
          match g.connectedOutgoing with
          | none => none
          | some connected =>
            match g.is.leastUseful connected with
            | some addr => g.closeClient addr
            | none => some g
      else some g

/-- The stall check that follows every event in `manage()`. -/
def stallCheck (g : Gossip) (now : Int) : Gossip :=
  if g.outgoing.len = 0 ∧ 0 < (g.filterExtant g.bootstraps).len then
    { g with events := g.events ++ [Event.stalledSignal] }
  else if (g.is.getInfo SentinelGossip now).isNone then
    { g with events := g.events ++ [Event.stalledSignal] }
  else g

/-- One iteration of the loop of `manage()`: the chosen case, the stall check
and the exit condition. The flag of the result says whether the loop is left. -/
def manageIter (ceilLogRatio : Int → Nat) (g : Gossip) (now : Int) (r : Nat)
    (ev : ManageEvent) : Option (Gossip × Bool) :=
  match g.manageCase ceilLogRatio now r ev with
  | none => none
  | some g1 =>
    let g2 := g1.stallCheck now
    some (g2, g2.closed && decide (g2.outgoing.len = 0))

/-- The send `g.exited <- nil` after the loop of `manage()`. A send on a nil
channel blocks forever: `none`. -/
def signalExit (g : Gossip) : Option Gossip :=
  match g.exited with
  | none => none
  | some q => some { g with exited := some (q ++ [none]), events := g.events ++ [Event.exitSent] }

/-- The loop of `Close()` over the snapshot of the outgoing set. -/
def closeAll (g : Gossip) : List Addr → Option Gossip
  | [] => some g
  | addr :: rest =>
    match g.closeClient addr with
    | none => none
    | some g1 => closeAll g1 rest

/-- The method `Close()`: the instance afterwards and the channel returned. -/
def Close (g : Gossip) : Option (Gossip × Option (List (Option String))) :=
  let g1 := { g with closed := true, events := g.events ++ [Event.stalledSignal] }
  match g1.closeAll g1.outgoing.asSlice with
  | none => none
  | some g2 => some (g2, g2.exited)

end Gossip

/-- A change made by the other goroutines of the instance between two steps:
the info store and the incoming set take any value (server and client
merges), and clients get or lose their transport handle. -/
def envStep (g : Gossip) (is1 : InfoStore) (incoming1 : AddrSet) (handle : String → Bool) : Gossip :=
  { g with
    is := is1
    incoming := incoming1
    clients := g.clients.map (fun p => (p.1, { p.2 with rpcClient := handle p.1 })) }

/-- The states an instance built by `New` can reach. -/
inductive Reachable : Gossip → Prop where
  | new (addr : Addr) : Reachable (New addr)
  | setBootstrap {g : Gossip} (bs : List Addr) : Reachable g → Reachable (g.SetBootstrap bs)
  | parse {g g1 : Gossip} (split : String → List String) (resolve : String → Option Addr)
      (flag : String) : Reachable g →
      g.parseBootstrapAddresses split resolve flag = some g1 → Reachable g1
  | bootstrap {g g1 : Gossip} (now : Int) (r : Nat) (b : Bool) : Reachable g →
      g.bootstrapIter now r = some (g1, b) → Reachable g1
  | manage {g g1 : Gossip} (ceilLogRatio : Int → Nat) (now : Int) (r : Nat) (ev : ManageEvent)
      (b : Bool) : Reachable g → g.manageIter ceilLogRatio now r ev = some (g1, b) → Reachable g1
  | startClient {g : Gossip} (addr : Addr) : Reachable g → Reachable (g.startClient addr)
  | closeClient {g g1 : Gossip} (addr : Addr) : Reachable g →
      g.closeClient addr = some g1 → Reachable g1
  | close {g g1 : Gossip} (ch : Option (List (Option String))) : Reachable g →
      g.Close = some (g1, ch) → Reachable g1
  | env {g : Gossip} (is1 : InfoStore) (incoming1 : AddrSet) (handle : String → Bool) :
      Reachable g → Reachable (envStep g is1 incoming1 handle)

/-- The reduced argument `f` of `Log x`. -/
def logArg (x : Nat) : ℚ :=
  if frexpFrac x < Sqrt2Half then fsub (fmul (frexpFrac x) 2) 1 else fsub (frexpFrac x) 1

/-- Rounding of a rational to the nearest integer, ties to even: the
specification of the significand that `rndNat` computes. -/
def rhe (z : ℚ) : ℤ :=
  if 1 / 2 < z - ⌊z⌋ ∨ (z - ⌊z⌋ = 1 / 2 ∧ ⌊z⌋ % 2 = 1) then ⌊z⌋ + 1 else ⌊z⌋

/-! ### Evaluation on binary fractions

The same float64 operations on values kept as a sign, a significand and a
binary exponent, and their extension to intervals. -/

/-- A float64 value in the form `± m * 2 ^ e`. -/
structure Dy where
  neg : Bool
  m : Nat
  e : Int

/-- The rational that a binary fraction denotes. -/
def Dy.toRat (x : Dy) : ℚ := (if x.neg then -(x.m : ℚ) else (x.m : ℚ)) * 2 ^ x.e

/-- The float64 nearest to `± (n / d) * 2 ^ K`, computed as `rndNat n d`. -/
def rndQuot (neg : Bool) (n d : Nat) (K : Int) : Dy :=
  let t := 54 + bitLen d
  let fl := n * 2 ^ t / d
  let r := n * 2 ^ t % d
  let sh := bitLen fl - 53
  let qt := fl / 2 ^ sh
  let rem := fl % 2 ^ sh * d + r
  let half := 2 ^ (sh - 1) * d
  ⟨neg, if half < rem ∨ (rem = half ∧ qt % 2 = 1) then qt + 1 else qt, K + sh - t⟩

/-- The float64 nearest to `± n * 2 ^ K`. -/
def rndDy (neg : Bool) (n : Nat) (K : Int) : Dy :=
  if bitLen n ≤ 53 then ⟨neg, n, K⟩
  else
    let sh := bitLen n - 53
    let qt := n / 2 ^ sh
    let rem := n % 2 ^ sh
    let half := 2 ^ (sh - 1)
    ⟨neg, if half < rem ∨ (rem = half ∧ qt % 2 = 1) then qt + 1 else qt, K + sh⟩

/-- The float64 product. -/
def Dy.mul (a b : Dy) : Dy := rndDy (xor a.neg b.neg) (a.m * b.m) (a.e + b.e)

/-- The float64 sum of two values brought to the common exponent `e0`. -/
def Dy.addAux (a b : Dy) (e0 : Int) : Dy :=
  let x := a.m * 2 ^ (a.e - e0).toNat
  let y := b.m * 2 ^ (b.e - e0).toNat
  if a.neg = b.neg then rndDy a.neg (x + y) e0
  else if y ≤ x then rndDy a.neg (x - y) e0 else rndDy b.neg (y - x) e0

/-- The float64 sum. -/
def Dy.add (a b : Dy) : Dy := Dy.addAux a b (if a.e ≤ b.e then a.e else b.e)

/-- The float64 difference. -/
def Dy.sub (a b : Dy) : Dy := Dy.add a ⟨!b.neg, b.m, b.e⟩

/-- The float64 quotient. -/
def Dy.div (a b : Dy) : Dy := rndQuot (xor a.neg b.neg) a.m b.m (a.e - b.e)

/-- The order of the denoted rationals. -/
def Dy.le (a b : Dy) : Bool :=
  let e0 := if a.e ≤ b.e then a.e else b.e
  let x := a.m * 2 ^ (a.e - e0).toNat
  let y := b.m * 2 ^ (b.e - e0).toNat
  if a.neg then (if b.neg then decide (y ≤ x) else true)
  else (if b.neg then decide (x = 0 ∧ y = 0) else decide (x ≤ y))

/-- The smaller of two values. -/
def Dy.min (a b : Dy) : Dy := if Dy.le a b then a else b

/-- The larger of two values. -/
def Dy.max (a b : Dy) : Dy := if Dy.le a b then b else a

/-- A natural number as a binary fraction. -/
def Dy.ofNat (n : Nat) : Dy := ⟨false, n, 0⟩

/-- A closed interval with float64 ends. -/
structure Ival where
  lo : Dy
  hi : Dy

/-- Membership of a rational in an interval. -/
def Ival.has (I : Ival) (x : ℚ) : Prop := I.lo.toRat ≤ x ∧ x ≤ I.hi.toRat

/-- The interval that holds one point. -/
def ipt (x : Dy) : Ival := ⟨x, x⟩

/-- An enclosure of the float64 sums of two intervals. -/
def iadd (a b : Ival) : Ival := ⟨Dy.add a.lo b.lo, Dy.add a.hi b.hi⟩

/-- An enclosure of the float64 differences of two intervals. -/
def isub (a b : Ival) : Ival := ⟨Dy.sub a.lo b.hi, Dy.sub a.hi b.lo⟩

/-- An enclosure of the float64 products of two intervals. -/
def imul (a b : Ival) : Ival :=
  if a.lo.neg = false ∧ b.lo.neg = false then ⟨Dy.mul a.lo b.lo, Dy.mul a.hi b.hi⟩
  else
    ⟨Dy.min (Dy.min (Dy.mul a.lo b.lo) (Dy.mul a.lo b.hi))
       (Dy.min (Dy.mul a.hi b.lo) (Dy.mul a.hi b.hi)),
     Dy.max (Dy.max (Dy.mul a.lo b.lo) (Dy.mul a.lo b.hi))
       (Dy.max (Dy.mul a.hi b.lo) (Dy.mul a.hi b.hi))⟩

/-- An enclosure of the float64 quotients of two intervals, the second one
positive. -/
def idiv (a b : Ival) : Ival :=
  ⟨Dy.min (Dy.min (Dy.div a.lo b.lo) (Dy.div a.lo b.hi))
     (Dy.min (Dy.div a.hi b.lo) (Dy.div a.hi b.hi)),
   Dy.max (Dy.max (Dy.div a.lo b.lo) (Dy.div a.lo b.hi))
     (Dy.max (Dy.div a.hi b.lo) (Dy.div a.hi b.hi))⟩

/-- The constants of math/log.go as binary fractions. -/
def dLn2Hi : Dy := ⟨false, 0x162e42fee00000, -53⟩

/-- See `dLn2Hi`. -/
def dLn2Lo : Dy := ⟨false, 0x1a39ef35793c76, -85⟩

/-- See `dLn2Hi`. -/
def dL1 : Dy := ⟨false, 0x15555555555593, -53⟩

/-- See `dLn2Hi`. -/
def dL2 : Dy := ⟨false, 0x1999999997FA04, -54⟩

/-- See `dLn2Hi`. -/
def dL3 : Dy := ⟨false, 0x12492494229359, -54⟩

/-- See `dLn2Hi`. -/
def dL4 : Dy := ⟨false, 0x1C71C51D8E78AF, -55⟩

/-- See `dLn2Hi`. -/
def dL5 : Dy := ⟨false, 0x17466496CB03DE, -55⟩

/-- See `dLn2Hi`. -/
def dL6 : Dy := ⟨false, 0x139A09D078C69F, -55⟩

/-- See `dLn2Hi`. -/
def dL7 : Dy := ⟨false, 0x12F112DF3E5244, -55⟩

/-- See `dLn2Hi`. -/
def dSqrt2Half : Dy := ⟨false, 0x16A09E667F3BCD, -53⟩

/-- The value 1/2. -/
def dHalf : Dy := ⟨false, 1, -1⟩

/-- The interval evaluation of `logTail`. -/
def logTailI (f : Ival) (k : Dy) : Ival :=
  let s := idiv f (iadd (ipt (Dy.ofNat 2)) f)
  let s2 := imul s s
  let s4 := imul s2 s2
  let t1 := imul s2 (iadd (ipt dL1) (imul s4 (iadd (ipt dL3) (imul s4 (iadd (ipt dL5)
    (imul s4 (ipt dL7)))))))
  let t2 := imul s4 (iadd (ipt dL2) (imul s4 (iadd (ipt dL4) (imul s4 (ipt dL6)))))
  let R := iadd t1 t2
  let hfsq := imul (imul (ipt dHalf) f) f
  isub (imul (ipt k) (ipt dLn2Hi))
    (isub (isub hfsq (iadd (imul s (iadd hfsq R)) (imul (ipt k) (ipt dLn2Lo)))) f)

/-- The fraction of `Frexp x` as a binary fraction. -/
def dfrexp (x : Nat) : Dy := ⟨false, x, -(bitLen x : Int)⟩

/-- The reduced argument `logArg x` as a binary fraction. -/
def dlogArg (x : Nat) : Dy :=
  if Dy.le dSqrt2Half (dfrexp x) then Dy.sub (dfrexp x) (Dy.ofNat 1)
  else Dy.sub (Dy.mul (dfrexp x) (Dy.ofNat 2)) (Dy.ofNat 1)

/-- The interval evaluation of `Log` on the integers from `a` to `b`, which
have the same number of binary digits and take the same branch. -/
def LogI (a b : Nat) : Ival :=
  logTailI ⟨dlogArg a, dlogArg b⟩
    (if Dy.le dSqrt2Half (dfrexp a) then Dy.ofNat (bitLen a) else Dy.ofNat (bitLen a - 1))

/-- Test of `ceil x = c` for a positive `c`. -/
def Dy.ceilIs (x : Dy) (c : Nat) : Bool :=
  Dy.le x (Dy.ofNat c) && !Dy.le x (Dy.ofNat (c - 1))

/-- Check that every integer `x` from `a` to `b` has `ceil (Log x / D) = c`, by
interval evaluation. -/
def checkSeg (D : Dy) (c a b : Nat) : Bool :=
  decide (1 ≤ c) && decide (1 ≤ a) && decide (a ≤ b) && decide (bitLen a = bitLen b) &&
  (Dy.le dSqrt2Half (dfrexp a) == Dy.le dSqrt2Half (dfrexp b)) &&
  !Dy.le (Dy.add (Dy.ofNat 2) (dlogArg a)) (Dy.ofNat 0) &&
  Dy.ceilIs (Dy.div (LogI a b).lo D) c && Dy.ceilIs (Dy.div (LogI a b).hi D) c

/-- Check of consecutive segments: the first starts at `a`, each next one after
the end of the one before; the list gives the ends. -/
def checkSegs (D : Dy) (c : Nat) : Nat → List Nat → Bool
  | _, [] => true
  | a, b :: l => checkSeg D c a b && checkSegs D c (b + 1) l

/-- The first integer after the segments. -/
def segsEnd : Nat → List Nat → Nat
  | a, [] => a
  | _, b :: l => segsEnd (b + 1) l

/-- The value of `Log MaxPeers`, the float64 nearest to the logarithm of 10. -/
def logTen : Dy := ⟨false, 2592480341699211, -50⟩

/-! ### Segments on which the ceiling of the logarithm ratio is constant -/

/-- Ends of the segments that cover the integers from 2 to 10. -/
def logCert1 : List Nat :=
  [2, 3, 5, 7, 9, 10]

/-- Ends of the segments that cover the integers from 11 to 100. -/
def logCert2 : List Nat :=
  [11, 15, 22, 31, 45, 63, 90, 100]

/-- Ends of the segments that cover the integers from 101 to 1000. -/
def logCert3 : List Nat :=
  [127, 181, 255, 362, 511, 724, 1000]

/-- Ends of the segments that cover the integers from 1001 to 10000. -/
def logCert4 : List Nat :=
  [1023, 1236, 1448, 2047, 2896, 4095, 5792, 8191, 9096, 9548, 9774, 9887, 9944, 9972, 9986,
   9993, 9997, 9999, 10000]

/-- Ends of the segments that cover the integers from 10001 to 100000. -/
def logCert5 : List Nat :=
  [10004, 10007, 10013, 10025, 10050, 10100, 10199, 10397, 10793, 11585, 16383, 23170, 32767,
   46340, 65535, 79108, 92681, 100000]

/-- Ends of the segments that cover the integers from 100001 to 1000000. -/
def logCert6 : List Nat :=
  [131071, 185363, 262143, 370727, 524287, 741455, 1000000]

/-- Ends of the segments that cover the integers from 1000001 to 10000000. -/
def logCert7 : List Nat :=
  [1048575, 1265743, 1482910, 2097151, 2965820, 4194303, 5931641, 8388607, 9194304, 9597152,
   9798576, 9899288, 9949644, 9974822, 9987411, 9993706, 9996853, 9998427, 9999214, 9999607,
   9999804, 9999902, 9999951, 9999976, 9999988, 9999994, 9999997, 9999999, 10000000]

/-- Ends of the segments that cover the integers from 10000001 to 100000000. -/
def logCert8 : List Nat :=
  [10000004, 10000008, 10000015, 10000029, 10000057, 10000114, 10000228, 10000455, 10000910,
   10001820, 10003640, 10007279, 10014557, 10029114, 10058228, 10116456, 10232911, 10465821,
   10931642, 11863283, 16777215, 23726566, 33554431, 47453132, 67108863, 81007564, 87956915,
   94906265, 100000000]

/-- Ends of the segments that cover the integers from 100000001 to 1000000000. -/
def logCert9 : List Nat :=
  [134217727, 189812531, 268435455, 379625062, 536870911, 759250124, 1000000000]

/-- Ends of the segments that cover the integers from 1000000001 to 10000000000. -/
def logCert10 : List Nat :=
  [1073741823, 1296121036, 1518500249, 2147483647, 3037000499, 4294967295, 6074000999,
   8589934591, 9294967296, 9647483648, 9823741824, 9911870912, 9955935456, 9977967728,
   9988983864, 9994491932, 9997245966, 9998622983, 9999311492, 9999655746, 9999827873,
   9999913937, 9999956969, 9999978485, 9999989243, 9999994622, 9999997311, 9999998656,
   9999999328, 9999999664, 9999999832, 9999999916, 9999999958, 9999999979, 9999999990,
   9999999995, 9999999998, 9999999999, 10000000000]

/-- Ends of the segments that cover the integers from 10000000001 to 100000000000. -/
def logCert11 : List Nat :=
  [10000000005, 10000000009, 10000000017, 10000000033, 10000000065, 10000000129, 10000000257,
   10000000513, 10000001025, 10000002049, 10000004097, 10000008194, 10000016388, 10000032776,
   10000065552, 10000131104, 10000262208, 10000524415, 10001048830, 10002097659, 10004195317,
   10008390633, 10016781266, 10033562532, 10067125063, 10134250125, 10268500250, 10537000500,
   11074001000, 12148001999, 17179869183, 24296003999, 34359738367, 48592007999, 68719476735,
   82951746367, 90067881183, 93625948591, 97184015999, 100000000000]

/-- Ends of the segments that cover the integers from 100000000001 to 1000000000000. -/
def logCert12 : List Nat :=
  [137438953471, 194368031998, 274877906943, 388736063996, 549755813887, 777472127993,
   1000000000000]

/-- Ends of the segments that cover the integers from 1000000000001 to 10000000000000. -/
def logCert13 : List Nat :=
  [1099511627775, 1554944255987, 2199023255551, 3109888511975, 4398046511103, 6219777023950,
   8796093022207, 9398046511104, 9699023255552, 9849511627776, 9924755813888, 9962377906944,
   9981188953472, 9990594476736, 9995297238368, 9997648619184, 9998824309592, 9999412154796,
   9999706077398, 9999853038699, 9999926519350, 9999963259675, 9999981629838, 9999990814919,
   9999995407460, 9999997703730, 9999998851865, 9999999425933, 9999999712967, 9999999856484,
   9999999928242, 9999999964121, 9999999982061, 9999999991031, 9999999995516, 9999999997758,
   9999999998879, 9999999999440, 9999999999720, 9999999999860, 9999999999930, 9999999999965,
   9999999999983, 9999999999992, 9999999999996, 9999999999998, 9999999999999, 10000000000000]

/-- Ends of the segments that cover the integers from 10000000000001 to 100000000000000. -/
def logCert14 : List Nat :=
  [10000000000005, 10000000000009, 10000000000018, 10000000000036, 10000000000072,
   10000000000143, 10000000000285, 10000000000569, 10000000001137, 10000000002273,
   10000000004545, 10000000009089, 10000000018177, 10000000036353, 10000000072705,
   10000000145409, 10000000290818, 10000000581636, 10000001163271, 10000002326541,
   10000004653081, 10000009306161, 10000018612321, 10000037224641, 10000074449282,
   10000148898563, 10000297797125, 10000595594250, 10001191188500, 10002382377000,
   10004764754000, 10009529508000, 10019059016000, 10038118031999, 10076236063997,
   10152472127994, 10304944255988, 10609888511976, 11219777023951, 12439554047901,
   17592186044415, 24879108095803, 35184372088831, 49758216191607, 70368744177663,
   84942588280439, 92229510331827, 95872971357521, 97694701870368, 98605567126792,
   99060999755004, 99516432383215, 100000000000000]

/-- Ends of the segments that cover the integers from 100000000000001 to 1000000000000000. -/
def logCert15 : List Nat :=
  [140737488355327, 199032864766430, 281474976710655, 398065729532860, 562949953421311,
   796131459065721, 1000000000000000]

/-! ## States used as examples -/

/-- An instance whose info store holds one record: `nodeCount` with the int64
value `n`, never expiring. -/
def nodeCountInstance (n : Int) : Gossip :=
  { New "self:1" with
    is := { Infos := [{ key := NodeCountGossip, val := Value.int64 n, timestamp := 0, ttl := 0,
                        seq := 1, hops := 0, nodeAddr := "self:1", peerAddr := none }],
            NodeAddr := "self:1" } }

/-- An instance with two bootstrap hosts and nothing else. -/
def bootstrapExample : Gossip := (New "self:1").SetBootstrap ["b:1", "c:1"]

/-- An instance whose only bootstrap host is the node itself. -/
def selfBootstrapExample : Gossip := New "self:1"

/-- An instance that holds one record, learned at 9 hops from `far:1`. -/
def tickExample : Gossip :=
  { New "self:1" with
    is := { Infos := [{ key := "k", val := Value.int64 1, timestamp := 0, ttl := 0,
                        seq := 1, hops := 9, nodeAddr := "far:1", peerAddr := some "p:1" }],
            NodeAddr := "self:1" } }

/-- Ten peer addresses. -/
def tenPeers : List Addr :=
  ["p0:1", "p1:1", "p2:1", "p3:1", "p4:1", "p5:1", "p6:1", "p7:1", "p8:1", "p9:1"]

/-- An instance built by `New` in which clients to ten peers were started. -/
def tenClients : Gossip := tenPeers.foldl (fun g a => g.startClient a) (New "self:1")

/-- The instance `tenClients` after all clients but the one to `p0:1` have
dialled and a record was learned at 9 hops from `far:1`. -/
def fullExample : Gossip :=
  envStep tenClients tickExample.is (newAddrSet MaxPeers) (fun k => k != "p0:1")

/-- The instance `tenClients` after an eleventh client, to `x:1`, was started:
the outgoing set is at capacity and does not take the address. -/
def elevenClients : Gossip := tenClients.startClient "x:1"

/-- The client to `x:1` as it arrives on the `disconnected` channel after its
peer redirected it to `f:1`. -/
def redirectedClient : Client :=
  { addr := "x:1", forwardAddr := some "f:1", err := none, rpcClient := true }

/-- An instance with two bootstrap hosts and a client to the first of them,
after `Close()` and one tick of the manage loop. -/
def closingExample : Option (Gossip × Bool) :=
  match (((New "self:1").SetBootstrap ["b:1", "c:1"]).startClient "b:1").Close with
  | none => none
  | some (g, _) => g.manageIter (fun _ => 3) 0 0 ManageEvent.checkTimeout

/-! # Theorems -/

/-! ## The float64 arithmetic of math.Log -/

theorem force_eq {α : Type} (x : Nat) (k : Nat → α) : force x k = k x := by
  cases x <;> rfl

theorem ilogStep_spec (k K : Nat) (hK : K = 2 * k) (cont : Nat → Nat)
    (h : ∀ n, 1 ≤ n → n < 2 ^ k → 1 ≤ cont n ∧ 2 ^ (cont n - 1) ≤ n ∧ n < 2 ^ cont n) :
    ∀ n, 1 ≤ n → n < 2 ^ K →
      1 ≤ ilogStep k n cont ∧ 2 ^ (ilogStep k n cont - 1) ≤ n ∧ n < 2 ^ ilogStep k n cont := by
  intro n h1 h2
  subst hK
  have hsq : 2 ^ (2 * k) = 2 ^ k * 2 ^ k := by rw [← pow_add, two_mul]
  have hpos : 0 < 2 ^ k := Nat.pow_pos (by norm_num)
  unfold ilogStep
  by_cases hc : 2 ^ k ≤ n
  · rw [Nat.ble_eq_true_of_le hc, cond_true]
    have hm1 : 1 ≤ n / 2 ^ k := (Nat.one_le_div_iff hpos).2 hc
    have hm2 : n / 2 ^ k < 2 ^ k := by
      rw [Nat.div_lt_iff_lt_mul hpos, ← hsq]
      exact h2
    obtain ⟨h3, h4, h5⟩ := h _ hm1 hm2
    refine ⟨by omega, ?_, ?_⟩
    · have e : cont (n / 2 ^ k) + k - 1 = (cont (n / 2 ^ k) - 1) + k := by omega
      rw [e, pow_add]
      calc 2 ^ (cont (n / 2 ^ k) - 1) * 2 ^ k ≤ n / 2 ^ k * 2 ^ k :=
            Nat.mul_le_mul_right _ h4
        _ ≤ n := Nat.div_mul_le_self _ _
    · have h6 : n < (n / 2 ^ k + 1) * 2 ^ k :=
        (Nat.div_lt_iff_lt_mul hpos).1 (Nat.lt_succ_iff.2 (le_refl _))
      have h7 : n / 2 ^ k + 1 ≤ 2 ^ cont (n / 2 ^ k) := h5
      calc n < (n / 2 ^ k + 1) * 2 ^ k := h6
        _ ≤ 2 ^ cont (n / 2 ^ k) * 2 ^ k := Nat.mul_le_mul_right _ h7
        _ = 2 ^ (cont (n / 2 ^ k) + k) := by rw [← pow_add]
  · have hb : Nat.ble (2 ^ k) n = false := by
      rw [← Bool.not_eq_true, Nat.ble_eq]
      exact hc
    rw [hb, cond_false]
    exact h n h1 (not_le.1 hc)

theorem bitLen_spec (n : Nat) (hn : n ≠ 0) :
    1 ≤ bitLen n ∧ 2 ^ (bitLen n - 1) ≤ n ∧ n < 2 ^ bitLen n := by
  unfold bitLen
  have h0 : Nat.beq n 0 = false := by
    rw [← Bool.not_eq_true, Nat.beq_eq]
    exact hn
  rw [h0, cond_false]
  by_cases hbig : 2 ^ 1024 ≤ n
  · rw [Nat.ble_eq_true_of_le hbig, cond_true]
    refine ⟨by omega, ?_, ?_⟩
    · rw [Nat.add_sub_cancel, Nat.log2_eq_log_two]
      exact Nat.pow_log_le_self 2 hn
    · rw [Nat.log2_eq_log_two]
      exact Nat.lt_pow_succ_log_self (by norm_num) n
  · have hb : Nat.ble (2 ^ 1024) n = false := by
      rw [← Bool.not_eq_true, Nat.ble_eq]
      exact hbig
    rw [hb, cond_false]
    have base : ∀ n, 1 ≤ n → n < 2 ^ 1 →
        1 ≤ (fun _ : Nat => 1) n ∧ 2 ^ ((fun _ : Nat => 1) n - 1) ≤ n ∧
          n < 2 ^ (fun _ : Nat => 1) n := by
      intro n h1 h2
      simp only [pow_one] at h2
      refine ⟨le_refl _, ?_, ?_⟩
      · simpa using h1
      · simpa using h2
    exact ilogStep_spec 512 1024 rfl _ (ilogStep_spec 256 512 rfl _ (ilogStep_spec 128 256 rfl _
      (ilogStep_spec 64 128 rfl _ (ilogStep_spec 32 64 rfl _ (ilogStep_spec 16 32 rfl _
        (ilogStep_spec 8 16 rfl _ (ilogStep_spec 4 8 rfl _ (ilogStep_spec 2 4 rfl _
          (ilogStep_spec 1 2 rfl _ base))))))))) n
      (Nat.one_le_iff_ne_zero.2 hn) (not_le.1 hbig)

theorem bitLen_unique (n L : Nat) (h1 : 2 ^ (L - 1) ≤ n) (h2 : n < 2 ^ L) (hL : 1 ≤ L) :
    bitLen n = L := by
  have hn : n ≠ 0 := by
    have : 0 < 2 ^ (L - 1) := Nat.pow_pos (by norm_num)
    omega
  obtain ⟨h3, h4, h5⟩ := bitLen_spec n hn
  have h6 : 2 ^ (bitLen n - 1) < 2 ^ L := lt_of_le_of_lt h4 h2
  have h7 : 2 ^ (L - 1) < 2 ^ bitLen n := lt_of_le_of_lt h1 h5
  rw [Nat.pow_lt_pow_iff_right (by norm_num)] at h6 h7
  omega

theorem bitLen_zero : bitLen 0 = 0 := rfl

theorem rhe_floor_le (z : ℚ) : ⌊z⌋ ≤ rhe z := by
  unfold rhe
  split_ifs <;> omega

theorem rhe_le_floor_succ (z : ℚ) : rhe z ≤ ⌊z⌋ + 1 := by
  unfold rhe
  split_ifs <;> omega

theorem rhe_mono {z w : ℚ} (h : z ≤ w) : rhe z ≤ rhe w := by
  have hf : ⌊z⌋ ≤ ⌊w⌋ := Int.floor_mono h
  rcases lt_or_eq_of_le hf with hlt | heq
  · calc rhe z ≤ ⌊z⌋ + 1 := rhe_le_floor_succ z
      _ ≤ ⌊w⌋ := hlt
      _ ≤ rhe w := rhe_floor_le w
  · unfold rhe
    rw [← heq]
    split_ifs with h1 h2 h2
    · exact le_refl _
    · exfalso
      apply h2
      rcases h1 with h1 | ⟨h1, h3⟩
      · left
        linarith
      · rcases lt_or_eq_of_le h with h4 | h4
        · left
          linarith
        · right
          rw [← h4]
          exact ⟨h1, h3⟩
    · omega
    · exact le_refl _

theorem rhe_ge_of_le {z : ℚ} {m : ℤ} (h : (m : ℚ) ≤ z) : m ≤ rhe z :=
  le_trans (Int.le_floor.2 h) (rhe_floor_le z)

theorem rhe_le_of_le {z : ℚ} {m : ℤ} (h : z ≤ (m : ℚ)) : rhe z ≤ m := by
  rcases lt_or_eq_of_le h with h1 | h1
  · have : ⌊z⌋ < m := Int.floor_lt.2 h1
    have := rhe_le_floor_succ z
    omega
  · subst h1
    unfold rhe
    rw [Int.floor_intCast]
    rw [if_neg]
    rw [sub_self]
    norm_num

theorem rhe_eq_of (q : ℕ) (φ : ℚ) (h0 : 0 ≤ φ) (h1 : φ < 1) :
    rhe ((q : ℚ) + φ) =
      if 1 / 2 < φ ∨ (φ = 1 / 2 ∧ q % 2 = 1) then ((q : ℤ) + 1) else (q : ℤ) := by
  have hfl : ⌊(q : ℚ) + φ⌋ = (q : ℤ) := by
    rw [Int.floor_eq_iff]
    push_cast
    constructor <;> linarith
  unfold rhe
  rw [hfl]
  have e : (q : ℚ) + φ - ((q : ℤ) : ℚ) = φ := by
    push_cast
    ring
  rw [e]
  have e2 : ((q : ℤ) % 2 = 1) ↔ (q % 2 = 1) := by omega
  simp only [e2]

theorem rndNat_spec (n d : Nat) (hn : 0 < n) (hd : 0 < d) :
    ∃ (e : ℤ) (z : ℚ), (n : ℚ) / d = z * 2 ^ e ∧ 2 ^ 52 ≤ z ∧ z < 2 ^ 53 ∧
      rndNat n d = rhe z * 2 ^ e := by
  have hbd := bitLen_spec d (by omega)
  simp only [rndNat]
  set t := 54 + bitLen d with ht
  set fl := n * 2 ^ t / d with hfl
  set r := n * 2 ^ t % d with hr
  have hA : n * 2 ^ t = d * fl + r := (Nat.div_add_mod _ _).symm
  have hrd : r < d := Nat.mod_lt _ hd
  have hfl54 : 2 ^ 54 ≤ fl := by
    rw [hfl, Nat.le_div_iff_mul_le hd]
    calc 2 ^ 54 * d ≤ 2 ^ 54 * 2 ^ bitLen d := Nat.mul_le_mul_left _ (le_of_lt hbd.2.2)
      _ = 2 ^ t := by rw [ht, pow_add]
      _ ≤ n * 2 ^ t := Nat.le_mul_of_pos_left _ hn
  have hflne : fl ≠ 0 := by
    have : 0 < 2 ^ 54 := Nat.pow_pos (by norm_num)
    omega
  obtain ⟨_, hL2, hL3⟩ := bitLen_spec fl hflne
  set L := bitLen fl with hL
  have hL55 : 54 < L := by
    have : 2 ^ 54 < 2 ^ L := lt_of_le_of_lt hfl54 hL3
    exact (Nat.pow_lt_pow_iff_right (by norm_num)).1 this
  set sh := L - 53 with hsh
  have hLsh : L = sh + 53 := by omega
  have hsh1 : sh - 1 + 1 = sh := by omega
  have hpsh : 0 < 2 ^ sh := Nat.pow_pos (by norm_num)
  set qt := fl / 2 ^ sh with hqt
  set m := fl % 2 ^ sh with hm
  have hfl2 : fl = 2 ^ sh * qt + m := (Nat.div_add_mod _ _).symm
  have hmlt : m < 2 ^ sh := Nat.mod_lt _ hpsh
  have hq1 : 2 ^ 52 ≤ qt := by
    rw [hqt, Nat.le_div_iff_mul_le hpsh, ← pow_add]
    have : 52 + sh = L - 1 := by omega
    rw [this]
    exact hL2
  have hq2 : qt < 2 ^ 53 := by
    rw [hqt, Nat.div_lt_iff_lt_mul hpsh, ← pow_add]
    have : 53 + sh = L := by omega
    rw [this]
    exact hL3
  set rem := m * d + r with hrem
  set half := 2 ^ (sh - 1) * d with hhalf
  have hhalf2 : 2 * half = 2 ^ sh * d := by
    rw [hhalf, ← mul_assoc, ← pow_succ', hsh1]
  have hremlt : rem < 2 ^ sh * d := by
    calc rem < m * d + d := by omega
      _ = (m + 1) * d := by ring
      _ ≤ 2 ^ sh * d := Nat.mul_le_mul_right _ hmlt
  have hdq : (0 : ℚ) < d := by exact_mod_cast hd
  have hpq : (0 : ℚ) < 2 ^ sh := by positivity
  have hden : (0 : ℚ) < 2 ^ sh * d := by positivity
  have hφ0 : (0 : ℚ) ≤ (rem : ℚ) / (2 ^ sh * d) := by positivity
  have hφ1 : (rem : ℚ) / (2 ^ sh * d) < 1 := by
    rw [div_lt_one hden]
    exact_mod_cast hremlt
  have hc1 : (1 / 2 < (rem : ℚ) / (2 ^ sh * d)) ↔ half < rem := by
    rw [lt_div_iff₀ hden]
    have e : (1 / 2 : ℚ) * (2 ^ sh * d) = half := by
      have : ((2 * half : ℕ) : ℚ) = ((2 ^ sh * d : ℕ) : ℚ) := by rw [hhalf2]
      push_cast at this
      linarith
    rw [e]
    exact Nat.cast_lt
  have hc2 : ((rem : ℚ) / (2 ^ sh * d) = 1 / 2) ↔ rem = half := by
    rw [div_eq_iff (ne_of_gt hden)]
    have e : (1 / 2 : ℚ) * (2 ^ sh * d) = half := by
      have : ((2 * half : ℕ) : ℚ) = ((2 ^ sh * d : ℕ) : ℚ) := by rw [hhalf2]
      push_cast at this
      linarith
    rw [e]
    exact Nat.cast_inj
  have hzp : (2 : ℚ) ^ ((sh : ℤ) - (t : ℤ)) = 2 ^ sh / 2 ^ t := by
    rw [zpow_sub₀ (by norm_num), zpow_natCast, zpow_natCast]
  refine ⟨(sh : ℤ) - (t : ℤ), (qt : ℚ) + (rem : ℚ) / (2 ^ sh * d), ?_, ?_, ?_, ?_⟩
  · rw [hzp]
    have hAq : (n : ℚ) * 2 ^ t = d * fl + r := by exact_mod_cast hA
    have hflq : (fl : ℚ) = 2 ^ sh * qt + m := by exact_mod_cast hfl2
    have hremq : (rem : ℚ) = m * d + r := by
      rw [hrem]
      push_cast
      ring
    have h2t : (0 : ℚ) < 2 ^ t := by positivity
    field_simp
    rw [hremq]
    have : (n : ℚ) * 2 ^ t = d * (2 ^ sh * qt + m) + r := by rw [hAq, hflq]
    linear_combination (2 ^ sh * (d : ℚ)) * this
  · have : ((2 ^ 52 : ℕ) : ℚ) ≤ qt := Nat.cast_le.2 hq1
    push_cast at this
    linarith
  · have : ((qt + 1 : ℕ) : ℚ) ≤ ((2 ^ 53 : ℕ) : ℚ) := Nat.cast_le.2 hq2
    push_cast at this
    linarith
  · rw [rhe_eq_of qt _ hφ0 hφ1, hzp, Rat.mkRat_eq_div]
    simp only [hc1, hc2]
    split_ifs
    · push_cast
      ring
    · push_cast
      ring

theorem rnd_eq (q : ℚ) :
    rnd q = if q.num < 0 then -rndNat q.num.natAbs q.den else rndNat q.num.natAbs q.den := by
  simp only [rnd, force_eq]

theorem rndNat_zero (d : Nat) (hd : 0 < d) : rndNat 0 d = 0 := by
  have h1 : ¬ (d < 0 ∨ (0 = d ∧ 0 % 2 = 1)) := by omega
  simp [rndNat, bitLen_zero, h1]

theorem rnd_zero : rnd 0 = 0 := by
  rw [rnd_eq]
  simp [rndNat_zero]

theorem rnd_neg (q : ℚ) : rnd (-q) = -rnd q := by
  rw [rnd_eq, rnd_eq]
  simp only [Rat.neg_num, Rat.neg_den, Int.natAbs_neg]
  rcases lt_trichotomy q.num 0 with h | h | h
  · rw [if_neg (by omega), if_pos h, neg_neg]
  · rw [if_neg (by omega), if_neg (by omega), h]
    simp [rndNat_zero _ q.den_pos]
  · rw [if_pos (by omega), if_neg (by omega)]

theorem rnd_pos_spec (q : ℚ) (hq : 0 < q) :
    ∃ (e : ℤ) (z : ℚ), q = z * 2 ^ e ∧ 2 ^ 52 ≤ z ∧ z < 2 ^ 53 ∧ rnd q = rhe z * 2 ^ e := by
  have hnum : 0 < q.num := Rat.num_pos.2 hq
  obtain ⟨e, z, h1, h2, h3, h4⟩ :=
    rndNat_spec q.num.natAbs q.den (Int.natAbs_pos.2 (ne_of_gt hnum)) q.den_pos
  refine ⟨e, z, ?_, h2, h3, ?_⟩
  · rw [← h1]
    have : ((q.num.natAbs : ℤ) : ℚ) = (q.num : ℚ) := by
      rw [Int.natAbs_of_nonneg (le_of_lt hnum)]
    rw [← Int.cast_natCast, this]
    exact (Rat.num_div_den q).symm
  · rw [rnd_eq, if_neg (by omega)]
    exact h4

theorem rnd_pos (q : ℚ) (hq : 0 < q) : 0 < rnd q := by
  obtain ⟨e, z, _, h2, _, h4⟩ := rnd_pos_spec q hq
  rw [h4]
  have h5 : ((2 ^ 52 : ℤ) : ℚ) ≤ z := by
    push_cast
    exact h2
  have h6 : (2 ^ 52 : ℤ) ≤ rhe z := rhe_ge_of_le h5
  have h7 : (0 : ℚ) < (rhe z : ℚ) := by
    have : (0 : ℤ) < rhe z := lt_of_lt_of_le (by norm_num) h6
    exact_mod_cast this
  positivity

theorem rnd_mono_pos (y w : ℚ) (hy : 0 < y) (h : y ≤ w) : rnd y ≤ rnd w := by
  obtain ⟨e, z, h1, h2, h3, h4⟩ := rnd_pos_spec y hy
  obtain ⟨e', z', h1', h2', h3', h4'⟩ := rnd_pos_spec w (lt_of_lt_of_le hy h)
  rw [h4, h4']
  have hp : (0 : ℚ) < 2 ^ e := by positivity
  have hp' : (0 : ℚ) < 2 ^ e' := by positivity
  have hz52 : ∀ x : ℚ, 2 ^ 52 ≤ x → ((2 ^ 52 : ℤ) : ℚ) ≤ (rhe x : ℚ) := by
    intro x hx
    have h5 : ((2 ^ 52 : ℤ) : ℚ) ≤ x := by
      push_cast
      exact hx
    exact_mod_cast rhe_ge_of_le h5
  have hz53 : ∀ x : ℚ, x < 2 ^ 53 → (rhe x : ℚ) ≤ ((2 ^ 53 : ℤ) : ℚ) := by
    intro x hx
    have h5 : x ≤ ((2 ^ 53 : ℤ) : ℚ) := by
      push_cast
      exact le_of_lt hx
    exact_mod_cast rhe_le_of_le h5
  rcases lt_trichotomy e e' with hlt | heq | hgt
  · have hs : (2 : ℚ) ^ (e + 53) ≤ 2 ^ (e' + 52) :=
      zpow_le_zpow_right₀ (by norm_num) (by omega)
    have e1 : (2 : ℚ) ^ (e + 53) = 2 ^ 53 * 2 ^ e := by
      rw [zpow_add₀ (by norm_num)]
      norm_num
      ring
    have e2 : (2 : ℚ) ^ (e' + 52) = 2 ^ 52 * 2 ^ e' := by
      rw [zpow_add₀ (by norm_num)]
      norm_num
      ring
    have a1 := hz53 z h3
    have a2 := hz52 z' h2'
    push_cast at a1 a2
    calc (rhe z : ℚ) * 2 ^ e ≤ 2 ^ 53 * 2 ^ e := mul_le_mul_of_nonneg_right a1 (le_of_lt hp)
      _ = 2 ^ (e + 53) := e1.symm
      _ ≤ 2 ^ (e' + 52) := hs
      _ = 2 ^ 52 * 2 ^ e' := e2
      _ ≤ (rhe z' : ℚ) * 2 ^ e' := mul_le_mul_of_nonneg_right a2 (le_of_lt hp')
  · subst heq
    have hzz : z ≤ z' := by
      rw [h1, h1'] at h
      exact le_of_mul_le_mul_right h hp
    have : (rhe z : ℚ) ≤ (rhe z' : ℚ) := by exact_mod_cast rhe_mono hzz
    exact mul_le_mul_of_nonneg_right this (le_of_lt hp)
  · exfalso
    have hs : (2 : ℚ) ^ (e' + 53) ≤ 2 ^ (e + 52) :=
      zpow_le_zpow_right₀ (by norm_num) (by omega)
    have e1 : (2 : ℚ) ^ (e' + 53) = 2 ^ 53 * 2 ^ e' := by
      rw [zpow_add₀ (by norm_num)]
      norm_num
      ring
    have e2 : (2 : ℚ) ^ (e + 52) = 2 ^ 52 * 2 ^ e := by
      rw [zpow_add₀ (by norm_num)]
      norm_num
      ring
    have : w < y := by
      calc w = z' * 2 ^ e' := h1'
        _ < 2 ^ 53 * 2 ^ e' := mul_lt_mul_of_pos_right h3' hp'
        _ = 2 ^ (e' + 53) := e1.symm
        _ ≤ 2 ^ (e + 52) := hs
        _ = 2 ^ 52 * 2 ^ e := e2
        _ ≤ z * 2 ^ e := mul_le_mul_of_nonneg_right h2 (le_of_lt hp)
        _ = y := h1.symm
    linarith

theorem rnd_mono {y w : ℚ} (h : y ≤ w) : rnd y ≤ rnd w := by
  rcases lt_trichotomy 0 y with hy | hy | hy
  · exact rnd_mono_pos y w hy h
  · subst hy
    rw [rnd_zero]
    rcases lt_or_eq_of_le h with h1 | h1
    · exact le_of_lt (rnd_pos w h1)
    · rw [← h1, rnd_zero]
  · rcases lt_trichotomy 0 w with hw | hw | hw
    · have h1 : 0 < rnd (-y) := rnd_pos (-y) (by linarith)
      rw [rnd_neg] at h1
      have h2 := rnd_pos w hw
      linarith
    · subst hw
      have h1 : 0 < rnd (-y) := rnd_pos (-y) (by linarith)
      rw [rnd_neg] at h1
      rw [rnd_zero]
      linarith
    · have h1 := rnd_mono_pos (-w) (-y) (by linarith) (by linarith)
      rw [rnd_neg, rnd_neg] at h1
      linarith

theorem binade_unique {z w : ℚ} {e f : ℤ} (h : z * 2 ^ e = w * 2 ^ f) (hz1 : 2 ^ 52 ≤ z)
    (hz2 : z < 2 ^ 53) (hw1 : 2 ^ 52 ≤ w) (hw2 : w < 2 ^ 53) : e = f ∧ z = w := by
  have hp : (0 : ℚ) < 2 ^ e := by positivity
  have hq : (0 : ℚ) < 2 ^ f := by positivity
  have key : ∀ (a b : ℚ) (i j : ℤ), a < 2 ^ 53 → 2 ^ 52 ≤ b → i < j → a * 2 ^ i < b * 2 ^ j := by
    intro a b i j ha hb hij
    have hi : (0 : ℚ) < 2 ^ i := by positivity
    have hj : (0 : ℚ) < 2 ^ j := by positivity
    have hs : (2 : ℚ) ^ (i + 53) ≤ 2 ^ (j + 52) :=
      zpow_le_zpow_right₀ (by norm_num) (by omega)
    have e1 : (2 : ℚ) ^ (i + 53) = 2 ^ 53 * 2 ^ i := by
      rw [zpow_add₀ (by norm_num)]
      norm_num
      ring
    have e2 : (2 : ℚ) ^ (j + 52) = 2 ^ 52 * 2 ^ j := by
      rw [zpow_add₀ (by norm_num)]
      norm_num
      ring
    calc a * 2 ^ i < 2 ^ 53 * 2 ^ i := mul_lt_mul_of_pos_right ha hi
      _ = 2 ^ (i + 53) := e1.symm
      _ ≤ 2 ^ (j + 52) := hs
      _ = 2 ^ 52 * 2 ^ j := e2
      _ ≤ b * 2 ^ j := mul_le_mul_of_nonneg_right hb (le_of_lt hj)
  rcases lt_trichotomy e f with hlt | heq | hgt
  · exact absurd h (ne_of_lt (key z w e f hz2 hw1 hlt))
  · subst heq
    exact ⟨rfl, mul_right_cancel₀ (ne_of_gt hp) h⟩
  · exact absurd h.symm (ne_of_lt (key w z f e hw2 hz1 hgt))

theorem rnd_eq_of_spec {y z : ℚ} {e : ℤ} (h : y = z * 2 ^ e) (hz1 : 2 ^ 52 ≤ z)
    (hz2 : z < 2 ^ 53) : rnd y = rhe z * 2 ^ e := by
  have hy : 0 < y := by
    rw [h]
    have : (0 : ℚ) < 2 ^ e := by positivity
    have : (0 : ℚ) < z := lt_of_lt_of_le (by norm_num) hz1
    positivity
  obtain ⟨e', z', h1, h2, h3, h4⟩ := rnd_pos_spec y hy
  have hu := binade_unique (h.symm.trans h1) hz1 hz2 h2 h3
  rw [h4, hu.1, hu.2]

theorem rhe_natCast (m : ℕ) : rhe (m : ℚ) = (m : ℤ) := by
  have h := rhe_eq_of m 0 (le_refl _) (by norm_num)
  rw [add_zero] at h
  rw [h, if_neg]
  norm_num

theorem rnd_natCast_zpow (n : Nat) (K : ℤ) (h : bitLen n ≤ 53) :
    rnd ((n : ℚ) * 2 ^ K) = (n : ℚ) * 2 ^ K := by
  rcases Nat.eq_zero_or_pos n with h0 | hn
  · subst h0
    simp [rnd_zero]
  · obtain ⟨h1, h2, h3⟩ := bitLen_spec n (by omega)
    have e1 : (n : ℚ) * 2 ^ K
        = ((n * 2 ^ (53 - bitLen n) : ℕ) : ℚ) * 2 ^ (K - ((53 - bitLen n : ℕ) : ℤ)) := by
      rw [zpow_sub₀ (by norm_num), zpow_natCast]
      push_cast
      field_simp
      ring
    have b1 : (2 : ℚ) ^ 52 ≤ ((n * 2 ^ (53 - bitLen n) : ℕ) : ℚ) := by
      have : 2 ^ 52 ≤ n * 2 ^ (53 - bitLen n) := by
        calc 2 ^ 52 = 2 ^ (bitLen n - 1) * 2 ^ (53 - bitLen n) := by
              rw [← pow_add]
              congr 1
              omega
          _ ≤ n * 2 ^ (53 - bitLen n) := Nat.mul_le_mul_right _ h2
      exact_mod_cast this
    have b2 : ((n * 2 ^ (53 - bitLen n) : ℕ) : ℚ) < 2 ^ 53 := by
      have : n * 2 ^ (53 - bitLen n) < 2 ^ 53 := by
        calc n * 2 ^ (53 - bitLen n) < 2 ^ bitLen n * 2 ^ (53 - bitLen n) :=
              Nat.mul_lt_mul_of_pos_right h3 (Nat.pow_pos (by norm_num))
          _ = 2 ^ 53 := by
              rw [← pow_add]
              congr 1
              omega
      exact_mod_cast this
    rw [rnd_eq_of_spec e1 b1 b2, rhe_natCast, Int.cast_natCast, ← e1]

theorem Dy.toRat_neg_mk (s : Bool) (m : Nat) (e : ℤ) :
    (Dy.mk (!s) m e).toRat = -(Dy.mk s m e).toRat := by
  cases s <;> simp [Dy.toRat]

theorem Dy.toRat_mk (s : Bool) (m : Nat) (e : ℤ) :
    (Dy.mk s m e).toRat = if s then -((m : ℚ) * 2 ^ e) else (m : ℚ) * 2 ^ e := by
  cases s <;> simp [Dy.toRat]

theorem Dy.toRat_ofNat (n : Nat) : (Dy.ofNat n).toRat = (n : ℚ) := by
  simp [Dy.ofNat, Dy.toRat]

theorem dy_value (neg : Bool) (N sh t : ℕ) (K : ℤ) :
    (Dy.mk neg N (K + sh - t)).toRat =
      if neg then -(mkRat ((N * 2 ^ sh : ℕ) : ℤ) (2 ^ t) * 2 ^ K)
      else mkRat ((N * 2 ^ sh : ℕ) : ℤ) (2 ^ t) * 2 ^ K := by
  have hz : (2 : ℚ) ^ (K + (sh : ℤ) - (t : ℤ)) = 2 ^ K * 2 ^ sh / 2 ^ t := by
    rw [zpow_sub₀ (by norm_num), zpow_add₀ (by norm_num), zpow_natCast, zpow_natCast]
  have hm : mkRat ((N * 2 ^ sh : ℕ) : ℤ) (2 ^ t) * (2 : ℚ) ^ K
      = (N : ℚ) * (2 ^ K * 2 ^ sh / 2 ^ t) := by
    rw [Rat.mkRat_eq_div]
    push_cast
    ring
  rw [Dy.toRat_mk, hz, hm]

theorem rndQuot_eq (neg : Bool) (n d : Nat) (K : ℤ) :
    (rndQuot neg n d K).toRat =
      if neg then -(rndNat n d * 2 ^ K) else rndNat n d * 2 ^ K := by
  simp only [rndQuot, rndNat]
  exact dy_value _ _ _ _ _

theorem rnd_quot_scale (n d : Nat) (K : ℤ) (hd : 0 < d) :
    rnd ((n : ℚ) / d * 2 ^ K) = rndNat n d * 2 ^ K := by
  rcases Nat.eq_zero_or_pos n with h0 | hn
  · subst h0
    simp [rnd_zero, rndNat_zero d hd]
  · obtain ⟨e, z, h1, h2, h3, h4⟩ := rndNat_spec n d hn hd
    have h5 : (n : ℚ) / d * 2 ^ K = z * 2 ^ (e + K) := by
      rw [h1, zpow_add₀ (by norm_num)]
      ring
    rw [rnd_eq_of_spec h5 h2 h3, h4, zpow_add₀ (by norm_num)]
    ring

theorem rndQuot_toRat (neg : Bool) (n d : Nat) (K : ℤ) (hd : 0 < d) :
    (rndQuot neg n d K).toRat =
      if neg then -rnd ((n : ℚ) / d * 2 ^ K) else rnd ((n : ℚ) / d * 2 ^ K) := by
  rw [rndQuot_eq, rnd_quot_scale n d K hd]

theorem rnd_natCast_long (n : Nat) (K : ℤ) (h : 53 < bitLen n) :
    rnd ((n : ℚ) * 2 ^ K) =
      ((if 2 ^ (bitLen n - 53 - 1) < n % 2 ^ (bitLen n - 53) ∨
            (n % 2 ^ (bitLen n - 53) = 2 ^ (bitLen n - 53 - 1) ∧
              n / 2 ^ (bitLen n - 53) % 2 = 1)
          then n / 2 ^ (bitLen n - 53) + 1 else n / 2 ^ (bitLen n - 53) : ℕ) : ℚ)
        * 2 ^ (K + ((bitLen n - 53 : ℕ) : ℤ)) := by
  have hn : n ≠ 0 := by
    intro h0
    rw [h0, bitLen_zero] at h
    omega
  obtain ⟨_, hL2, hL3⟩ := bitLen_spec n hn
  set L := bitLen n with hL
  set sh := L - 53 with hsh
  have hsh1 : sh - 1 + 1 = sh := by omega
  have hpsh : 0 < 2 ^ sh := Nat.pow_pos (by norm_num)
  set qt := n / 2 ^ sh with hqt
  set rem := n % 2 ^ sh with hrem
  have hn2 : n = 2 ^ sh * qt + rem := (Nat.div_add_mod _ _).symm
  have hremlt : rem < 2 ^ sh := Nat.mod_lt _ hpsh
  have hq1 : 2 ^ 52 ≤ qt := by
    rw [hqt, Nat.le_div_iff_mul_le hpsh, ← pow_add]
    have : 52 + sh = L - 1 := by omega
    rw [this]
    exact hL2
  have hq2 : qt < 2 ^ 53 := by
    rw [hqt, Nat.div_lt_iff_lt_mul hpsh, ← pow_add]
    have : 53 + sh = L := by omega
    rw [this]
    exact hL3
  have hhalf2 : 2 * 2 ^ (sh - 1) = 2 ^ sh := by
    rw [← pow_succ', hsh1]
  have hpq : (0 : ℚ) < 2 ^ sh := by positivity
  have hφ0 : (0 : ℚ) ≤ (rem : ℚ) / 2 ^ sh := by positivity
  have hφ1 : (rem : ℚ) / 2 ^ sh < 1 := by
    rw [div_lt_one hpq]
    exact_mod_cast hremlt
  have ehalf : (1 / 2 : ℚ) * 2 ^ sh = ((2 ^ (sh - 1) : ℕ) : ℚ) := by
    have : ((2 * 2 ^ (sh - 1) : ℕ) : ℚ) = ((2 ^ sh : ℕ) : ℚ) := by rw [hhalf2]
    push_cast at this ⊢
    linarith
  have hc1 : (1 / 2 < (rem : ℚ) / 2 ^ sh) ↔ 2 ^ (sh - 1) < rem := by
    rw [lt_div_iff₀ hpq, ehalf]
    exact Nat.cast_lt
  have hc2 : ((rem : ℚ) / 2 ^ sh = 1 / 2) ↔ rem = 2 ^ (sh - 1) := by
    rw [div_eq_iff (ne_of_gt hpq), ehalf]
    exact Nat.cast_inj
  have hy : (n : ℚ) * 2 ^ K = ((qt : ℚ) + (rem : ℚ) / 2 ^ sh) * 2 ^ (K + (sh : ℤ)) := by
    have hnq : (n : ℚ) = 2 ^ sh * qt + rem := by exact_mod_cast hn2
    rw [zpow_add₀ (by norm_num), zpow_natCast, hnq]
    field_simp
    ring
  have b1 : (2 : ℚ) ^ 52 ≤ (qt : ℚ) + (rem : ℚ) / 2 ^ sh := by
    have : ((2 ^ 52 : ℕ) : ℚ) ≤ qt := Nat.cast_le.2 hq1
    push_cast at this
    linarith
  have b2 : (qt : ℚ) + (rem : ℚ) / 2 ^ sh < 2 ^ 53 := by
    have : ((qt + 1 : ℕ) : ℚ) ≤ ((2 ^ 53 : ℕ) : ℚ) := Nat.cast_le.2 hq2
    push_cast at this
    linarith
  rw [rnd_eq_of_spec hy b1 b2, rhe_eq_of qt _ hφ0 hφ1]
  simp only [hc1, hc2]
  split_ifs <;> push_cast <;> ring

theorem rndDy_toRat (neg : Bool) (n : Nat) (K : ℤ) :
    (rndDy neg n K).toRat =
      if neg then -rnd ((n : ℚ) * 2 ^ K) else rnd ((n : ℚ) * 2 ^ K) := by
  unfold rndDy
  by_cases h : bitLen n ≤ 53
  · rw [if_pos h, rnd_natCast_zpow n K h, Dy.toRat_mk]
  · rw [if_neg h, rnd_natCast_long n K (not_le.1 h)]
    exact Dy.toRat_mk _ _ _

theorem rnd_signed (s : Bool) (y : ℚ) :
    (if s then -rnd y else rnd y) = rnd (if s then -y else y) := by
  cases s <;> simp [rnd_neg]

theorem Dy.mul_toRat (a b : Dy) : (Dy.mul a b).toRat = fmul a.toRat b.toRat := by
  unfold Dy.mul fmul
  rw [rndDy_toRat, rnd_signed]
  congr 1
  rcases a with ⟨sa, ma, ea⟩
  rcases b with ⟨sb, mb, eb⟩
  cases sa <;> cases sb <;> simp [Dy.toRat, zpow_add₀] <;> ring

theorem dy_align (m : Nat) (e e0 : ℤ) (h : e0 ≤ e) :
    ((m * 2 ^ (e - e0).toNat : ℕ) : ℚ) * 2 ^ e0 = (m : ℚ) * 2 ^ e := by
  have h1 : ((2 : ℚ) ^ (e - e0).toNat) = 2 ^ (e - e0) := by
    rw [← zpow_natCast, Int.toNat_of_nonneg (by omega)]
  push_cast
  rw [h1, mul_assoc, ← zpow_add₀ (by norm_num)]
  congr 2
  omega

theorem Dy.addAux_toRat (a b : Dy) (e0 : ℤ) (ha : e0 ≤ a.e) (hb : e0 ≤ b.e) :
    (Dy.addAux a b e0).toRat = fadd a.toRat b.toRat := by
  have hx := dy_align a.m a.e e0 ha
  have hy := dy_align b.m b.e e0 hb
  unfold Dy.addAux fadd
  simp only []
  generalize a.m * 2 ^ (a.e - e0).toNat = x at hx ⊢
  generalize b.m * 2 ^ (b.e - e0).toNat = y at hy ⊢
  rcases a with ⟨sa, ma, ea⟩
  rcases b with ⟨sb, mb, eb⟩
  simp only [] at hx hy ⊢
  rw [Dy.toRat_mk sa, Dy.toRat_mk sb]
  by_cases hs : sa = sb
  · rw [if_pos hs, rndDy_toRat, rnd_signed]
    congr 1
    subst hs
    cases sa
    · simp only [Bool.false_eq_true, if_false]
      rw [← hx, ← hy]
      push_cast
      ring
    · simp only [if_true]
      rw [← hx, ← hy]
      push_cast
      ring
  · rw [if_neg hs]
    by_cases hle : y ≤ x
    · rw [if_pos hle, rndDy_toRat, rnd_signed]
      congr 1
      have hc : ((x - y : ℕ) : ℚ) = (x : ℚ) - y := Nat.cast_sub hle
      cases sa <;> cases sb <;> simp at hs ⊢
      · rw [hc, ← hx, ← hy]
        ring
      · rw [hc, ← hx, ← hy]
        ring
    · rw [if_neg hle, rndDy_toRat, rnd_signed]
      congr 1
      have hc : ((y - x : ℕ) : ℚ) = (y : ℚ) - x := Nat.cast_sub (by omega)
      cases sa <;> cases sb <;> simp at hs ⊢
      · rw [hc, ← hx, ← hy]
        ring
      · rw [hc, ← hx, ← hy]
        ring

theorem Dy.add_toRat (a b : Dy) : (Dy.add a b).toRat = fadd a.toRat b.toRat := by
  unfold Dy.add
  by_cases h : a.e ≤ b.e
  · rw [if_pos h]
    exact Dy.addAux_toRat a b a.e (le_refl _) h
  · rw [if_neg h]
    exact Dy.addAux_toRat a b b.e (by omega) (le_refl _)

theorem Dy.sub_toRat (a b : Dy) : (Dy.sub a b).toRat = fsub a.toRat b.toRat := by
  unfold Dy.sub fsub
  rw [Dy.add_toRat, Dy.toRat_neg_mk]
  unfold fadd
  rw [sub_eq_add_neg]

theorem Dy.div_toRat (a b : Dy) (hb : 0 < b.m) :
    (Dy.div a b).toRat = fdiv a.toRat b.toRat := by
  unfold Dy.div fdiv
  rw [rndQuot_toRat _ _ _ _ hb, rnd_signed]
  congr 1
  rcases a with ⟨sa, ma, ea⟩
  rcases b with ⟨sb, mb, eb⟩
  have hm : (mb : ℚ) ≠ 0 := by
    simp only at hb
    exact_mod_cast (ne_of_gt hb)
  have hp : (2 : ℚ) ^ eb ≠ 0 := by positivity
  cases sa <;> cases sb <;> simp [Dy.toRat, zpow_sub₀] <;> field_simp

theorem Dy.le_iff (a b : Dy) : Dy.le a b = true ↔ a.toRat ≤ b.toRat := by
  have key : ∀ e0 : ℤ, e0 ≤ a.e → e0 ≤ b.e →
      ((if a.neg then
          (if b.neg then decide (b.m * 2 ^ (b.e - e0).toNat ≤ a.m * 2 ^ (a.e - e0).toNat)
            else true)
        else
          (if b.neg then
            decide (a.m * 2 ^ (a.e - e0).toNat = 0 ∧ b.m * 2 ^ (b.e - e0).toNat = 0)
          else decide (a.m * 2 ^ (a.e - e0).toNat ≤ b.m * 2 ^ (b.e - e0).toNat))) = true
        ↔ a.toRat ≤ b.toRat) := by
    intro e0 ha hb
    have hx := dy_align a.m a.e e0 ha
    have hy := dy_align b.m b.e e0 hb
    generalize a.m * 2 ^ (a.e - e0).toNat = x at hx ⊢
    generalize b.m * 2 ^ (b.e - e0).toNat = y at hy ⊢
    have hp : (0 : ℚ) < 2 ^ e0 := by positivity
    have hx0 : (0 : ℚ) ≤ x := Nat.cast_nonneg x
    have hy0 : (0 : ℚ) ≤ y := Nat.cast_nonneg y
    rcases a with ⟨sa, ma, ea⟩
    rcases b with ⟨sb, mb, eb⟩
    simp only [] at hx hy ⊢
    rw [Dy.toRat_mk sa, Dy.toRat_mk sb]
    cases sa <;> cases sb <;>
      simp only [Bool.false_eq_true, if_false, if_true, decide_eq_true_eq] <;>
      rw [← hx, ← hy]
    · rw [mul_le_mul_right hp]
      exact Nat.cast_le.symm
    · constructor
      · rintro ⟨h1, h2⟩
        subst h1
        subst h2
        simp
      · intro h
        have h1 : (x : ℚ) * 2 ^ e0 ≤ 0 := by
          have := mul_nonneg hy0 (le_of_lt hp)
          linarith
        have hxz : (x : ℚ) = 0 := by
          have := mul_nonneg hx0 (le_of_lt hp)
          have h3 : (x : ℚ) * 2 ^ e0 = 0 := le_antisymm h1 this
          rcases mul_eq_zero.1 h3 with h4 | h4
          · exact h4
          · exact absurd h4 (ne_of_gt hp)
        have hyz : (y : ℚ) = 0 := by
          rw [hxz] at h
          have h5 : (y : ℚ) * 2 ^ e0 ≤ 0 := by linarith
          have := mul_nonneg hy0 (le_of_lt hp)
          have h3 : (y : ℚ) * 2 ^ e0 = 0 := le_antisymm h5 this
          rcases mul_eq_zero.1 h3 with h4 | h4
          · exact h4
          · exact absurd h4 (ne_of_gt hp)
        exact ⟨by exact_mod_cast hxz, by exact_mod_cast hyz⟩
    · constructor
      · intro _
        have h1 := mul_nonneg hx0 (le_of_lt hp)
        have h2 := mul_nonneg hy0 (le_of_lt hp)
        linarith
      · intro _
        trivial
    · rw [neg_le_neg_iff, mul_le_mul_right hp]
      exact Nat.cast_le.symm
  unfold Dy.le
  simp only []
  by_cases h : a.e ≤ b.e
  · rw [if_pos h]
    exact key a.e (le_refl _) h
  · rw [if_neg h]
    exact key b.e (by omega) (le_refl _)

theorem Dy.min_toRat (a b : Dy) : (Dy.min a b).toRat = Min.min a.toRat b.toRat := by
  unfold Dy.min
  by_cases h : Dy.le a b = true
  · rw [if_pos h, min_eq_left ((Dy.le_iff a b).1 h)]
  · rw [if_neg h, min_eq_right]
    have := (not_congr (Dy.le_iff a b)).1 h
    exact le_of_lt (not_le.1 this)

theorem Dy.max_toRat (a b : Dy) : (Dy.max a b).toRat = Max.max a.toRat b.toRat := by
  unfold Dy.max
  by_cases h : Dy.le a b = true
  · rw [if_pos h, max_eq_right ((Dy.le_iff a b).1 h)]
  · rw [if_neg h, max_eq_left]
    have := (not_congr (Dy.le_iff a b)).1 h
    exact le_of_lt (not_le.1 this)

theorem corner_lo {a b c d x y : ℚ} (h1 : a ≤ x) (h2 : x ≤ b) (h3 : c ≤ y) (h4 : y ≤ d) :
    a * c ≤ x * y ∨ a * d ≤ x * y ∨ b * c ≤ x * y ∨ b * d ≤ x * y := by
  rcases le_or_lt 0 y with hy | hy
  · rcases le_or_lt 0 a with ha | ha
    · left
      nlinarith
    · right
      left
      nlinarith
  · rcases le_or_lt 0 b with hb | hb
    · right
      right
      left
      nlinarith
    · right
      right
      right
      nlinarith

theorem corner_hi {a b c d x y : ℚ} (h1 : a ≤ x) (h2 : x ≤ b) (h3 : c ≤ y) (h4 : y ≤ d) :
    x * y ≤ a * c ∨ x * y ≤ a * d ∨ x * y ≤ b * c ∨ x * y ≤ b * d := by
  rcases le_or_lt 0 y with hy | hy
  · rcases le_or_lt 0 b with hb | hb
    · right
      right
      right
      nlinarith
    · right
      right
      left
      nlinarith
  · rcases le_or_lt 0 a with ha | ha
    · right
      left
      nlinarith
    · left
      nlinarith

theorem corners_sound {p1 p2 p3 p4 v : ℚ} :
    (p1 ≤ v ∨ p2 ≤ v ∨ p3 ≤ v ∨ p4 ≤ v) → min (min p1 p2) (min p3 p4) ≤ v := by
  intro h
  simp only [min_le_iff]
  tauto

theorem corners_sound_hi {p1 p2 p3 p4 v : ℚ} :
    (v ≤ p1 ∨ v ≤ p2 ∨ v ≤ p3 ∨ v ≤ p4) → v ≤ max (max p1 p2) (max p3 p4) := by
  intro h
  simp only [le_max_iff]
  tauto

theorem Dy.toRat_nonneg (x : Dy) (h : x.neg = false) : 0 ≤ x.toRat := by
  unfold Dy.toRat
  rw [h]
  simp only [Bool.false_eq_true, if_false]
  positivity

theorem Dy.m_pos_of_toRat_pos (x : Dy) (h : 0 < x.toRat) : 0 < x.m := by
  rcases Nat.eq_zero_or_pos x.m with h0 | h0
  · exfalso
    unfold Dy.toRat at h
    rw [h0] at h
    simp at h
  · exact h0

theorem ipt_sound (x : Dy) : (ipt x).has x.toRat := ⟨le_refl _, le_refl _⟩

theorem iadd_sound {a b : Ival} {x y : ℚ} (hx : a.has x) (hy : b.has y) :
    (iadd a b).has (fadd x y) := by
  unfold iadd Ival.has
  rw [Dy.add_toRat, Dy.add_toRat]
  exact ⟨rnd_mono (add_le_add hx.1 hy.1), rnd_mono (add_le_add hx.2 hy.2)⟩

theorem isub_sound {a b : Ival} {x y : ℚ} (hx : a.has x) (hy : b.has y) :
    (isub a b).has (fsub x y) := by
  unfold isub Ival.has
  rw [Dy.sub_toRat, Dy.sub_toRat]
  exact ⟨rnd_mono (sub_le_sub hx.1 hy.2), rnd_mono (sub_le_sub hx.2 hy.1)⟩

theorem imul_sound {a b : Ival} {x y : ℚ} (hx : a.has x) (hy : b.has y) :
    (imul a b).has (fmul x y) := by
  unfold imul
  by_cases h : a.lo.neg = false ∧ b.lo.neg = false
  · rw [if_pos h]
    have ha := Dy.toRat_nonneg _ h.1
    have hb := Dy.toRat_nonneg _ h.2
    unfold Ival.has
    rw [Dy.mul_toRat, Dy.mul_toRat]
    constructor
    · apply rnd_mono
      exact mul_le_mul hx.1 hy.1 hb (le_trans ha hx.1)
    · apply rnd_mono
      exact mul_le_mul hx.2 hy.2 (le_trans hb hy.1) (le_trans (le_trans ha hx.1) hx.2)
  · rw [if_neg h]
    unfold Ival.has
    simp only [Dy.min_toRat, Dy.max_toRat, Dy.mul_toRat]
    constructor
    · apply corners_sound
      rcases corner_lo hx.1 hx.2 hy.1 hy.2 with h1 | h1 | h1 | h1
      · exact Or.inl (rnd_mono h1)
      · exact Or.inr (Or.inl (rnd_mono h1))
      · exact Or.inr (Or.inr (Or.inl (rnd_mono h1)))
      · exact Or.inr (Or.inr (Or.inr (rnd_mono h1)))
    · apply corners_sound_hi
      rcases corner_hi hx.1 hx.2 hy.1 hy.2 with h1 | h1 | h1 | h1
      · exact Or.inl (rnd_mono h1)
      · exact Or.inr (Or.inl (rnd_mono h1))
      · exact Or.inr (Or.inr (Or.inl (rnd_mono h1)))
      · exact Or.inr (Or.inr (Or.inr (rnd_mono h1)))

theorem idiv_sound {a b : Ival} {x y : ℚ} (hx : a.has x) (hy : b.has y)
    (hb : 0 < b.lo.toRat) : (idiv a b).has (fdiv x y) := by
  have hy0 : 0 < y := lt_of_lt_of_le hb hy.1
  have hhi : 0 < b.hi.toRat := lt_of_lt_of_le hy0 hy.2
  have m1 := Dy.m_pos_of_toRat_pos _ hb
  have m2 := Dy.m_pos_of_toRat_pos _ hhi
  have i1 : b.hi.toRat⁻¹ ≤ y⁻¹ := inv_anti₀ hy0 hy.2
  have i2 : y⁻¹ ≤ b.lo.toRat⁻¹ := inv_anti₀ hb hy.1
  unfold idiv Ival.has
  simp only [Dy.min_toRat, Dy.max_toRat, Dy.div_toRat _ _ m1, Dy.div_toRat _ _ m2]
  unfold fdiv
  simp only [div_eq_mul_inv]
  constructor
  · apply corners_sound
    rcases corner_lo hx.1 hx.2 i1 i2 with h1 | h1 | h1 | h1
    · exact Or.inr (Or.inl (rnd_mono h1))
    · exact Or.inl (rnd_mono h1)
    · exact Or.inr (Or.inr (Or.inr (rnd_mono h1)))
    · exact Or.inr (Or.inr (Or.inl (rnd_mono h1)))
  · apply corners_sound_hi
    rcases corner_hi hx.1 hx.2 i1 i2 with h1 | h1 | h1 | h1
    · exact Or.inr (Or.inl (rnd_mono h1))
    · exact Or.inl (rnd_mono h1)
    · exact Or.inr (Or.inr (Or.inr (rnd_mono h1)))
    · exact Or.inr (Or.inr (Or.inl (rnd_mono h1)))

theorem dy_const (m k : Nat) : (Dy.mk false m (-(k : ℤ))).toRat = mkRat m (2 ^ k) := by
  rw [Dy.toRat_mk, Rat.mkRat_eq_div]
  simp only [Bool.false_eq_true, if_false]
  rw [zpow_neg, zpow_natCast]
  push_cast
  rfl

theorem dLn2Hi_toRat : dLn2Hi.toRat = Ln2Hi := dy_const _ 53

theorem dLn2Lo_toRat : dLn2Lo.toRat = Ln2Lo := dy_const _ 85

theorem dL1_toRat : dL1.toRat = L1 := dy_const _ 53

theorem dL2_toRat : dL2.toRat = L2 := dy_const _ 54

theorem dL3_toRat : dL3.toRat = L3 := dy_const _ 54

theorem dL4_toRat : dL4.toRat = L4 := dy_const _ 55

theorem dL5_toRat : dL5.toRat = L5 := dy_const _ 55

theorem dL6_toRat : dL6.toRat = L6 := dy_const _ 55

theorem dL7_toRat : dL7.toRat = L7 := dy_const _ 55

theorem dSqrt2Half_toRat : dSqrt2Half.toRat = Sqrt2Half := dy_const _ 53

theorem dHalf_toRat : dHalf.toRat = 1 / 2 := by
  unfold dHalf
  rw [Dy.toRat_mk]
  norm_num

theorem ipt_has {x : Dy} {v : ℚ} (h : x.toRat = v) : (ipt x).has v := by
  rw [← h]
  exact ipt_sound x

theorem logTailI_sound {F : Ival} {f : ℚ} (k : Dy) (hf : F.has f)
    (hpos : 0 < (Dy.add (Dy.ofNat 2) F.lo).toRat) :
    (logTailI F k).has (logTail f k.toRat) := by
  have h2 : (ipt (Dy.ofNat 2)).has 2 := ipt_has (by rw [Dy.toRat_ofNat]; norm_num)
  have hs : (idiv F (iadd (ipt (Dy.ofNat 2)) F)).has (fdiv f (fadd 2 f)) :=
    idiv_sound hf (iadd_sound h2 hf) hpos
  have hs2 := imul_sound hs hs
  have hs4 := imul_sound hs2 hs2
  have ht1 := imul_sound hs2 (iadd_sound (ipt_has dL1_toRat) (imul_sound hs4
    (iadd_sound (ipt_has dL3_toRat) (imul_sound hs4 (iadd_sound (ipt_has dL5_toRat)
      (imul_sound hs4 (ipt_has dL7_toRat)))))))
  have ht2 := imul_sound hs4 (iadd_sound (ipt_has dL2_toRat) (imul_sound hs4
    (iadd_sound (ipt_has dL4_toRat) (imul_sound hs4 (ipt_has dL6_toRat)))))
  have hR := iadd_sound ht1 ht2
  have hh := imul_sound (imul_sound (ipt_has dHalf_toRat) hf) hf
  exact isub_sound (imul_sound (ipt_sound k) (ipt_has dLn2Hi_toRat))
    (isub_sound (isub_sound hh (iadd_sound (imul_sound hs (iadd_sound hh hR))
      (imul_sound (ipt_sound k) (ipt_has dLn2Lo_toRat)))) hf)

theorem frexpFrac_eq (x : Nat) : frexpFrac x = (x : ℚ) / 2 ^ bitLen x := by
  unfold frexpFrac
  rw [Rat.mkRat_eq_div]
  push_cast
  rfl

theorem dfrexp_toRat (x : Nat) : (dfrexp x).toRat = frexpFrac x :=
  dy_const x (bitLen x)

theorem dfrexp_branch (x : Nat) :
    Dy.le dSqrt2Half (dfrexp x) = true ↔ ¬ frexpFrac x < Sqrt2Half := by
  rw [Dy.le_iff, dSqrt2Half_toRat, dfrexp_toRat, not_lt]

theorem dlogArg_toRat (x : Nat) : (dlogArg x).toRat = logArg x := by
  unfold dlogArg logArg
  by_cases h : frexpFrac x < Sqrt2Half
  · have hb : ¬ Dy.le dSqrt2Half (dfrexp x) = true := fun hc => (dfrexp_branch x).1 hc h
    rw [if_neg hb, if_pos h, Dy.sub_toRat, Dy.mul_toRat, dfrexp_toRat, Dy.toRat_ofNat,
      Dy.toRat_ofNat]
    norm_num
  · have hb : Dy.le dSqrt2Half (dfrexp x) = true := (dfrexp_branch x).2 h
    rw [if_pos hb, if_neg h, Dy.sub_toRat, dfrexp_toRat, Dy.toRat_ofNat]
    norm_num

theorem bitLen_between {a b x : Nat} (ha : 1 ≤ a) (hab : bitLen a = bitLen b) (h1 : a ≤ x)
    (h2 : x ≤ b) : bitLen x = bitLen a := by
  obtain ⟨a1, a2, _⟩ := bitLen_spec a (by omega)
  obtain ⟨_, _, b3⟩ := bitLen_spec b (by omega)
  apply bitLen_unique x (bitLen a) (le_trans a2 h1) _ a1
  rw [hab]
  exact lt_of_le_of_lt h2 b3

theorem Log_eq (x : Nat) :
    Log x = logTail (logArg x)
      (if frexpFrac x < Sqrt2Half then (bitLen x : ℚ) - 1 else (bitLen x : ℚ)) := by
  unfold Log logArg
  split_ifs <;> rfl

theorem LogI_sound {a b x : Nat} (ha : 1 ≤ a) (hab : bitLen a = bitLen b)
    (hbr : Dy.le dSqrt2Half (dfrexp a) = Dy.le dSqrt2Half (dfrexp b))
    (hpos : 0 < (Dy.add (Dy.ofNat 2) (dlogArg a)).toRat) (h1 : a ≤ x) (h2 : x ≤ b) :
    (LogI a b).has (Log x) := by
  have hx : bitLen x = bitLen a := bitLen_between ha hab h1 h2
  have hp : (0 : ℚ) < 2 ^ bitLen a := by positivity
  have fa : frexpFrac a ≤ frexpFrac x := by
    rw [frexpFrac_eq, frexpFrac_eq, hx]
    exact div_le_div_of_nonneg_right (Nat.cast_le.2 h1) (le_of_lt hp)
  have fb : frexpFrac x ≤ frexpFrac b := by
    rw [frexpFrac_eq, frexpFrac_eq, hx, ← hab]
    exact div_le_div_of_nonneg_right (Nat.cast_le.2 h2) (le_of_lt hp)
  have hbr2 : (frexpFrac a < Sqrt2Half) ↔ (frexpFrac b < Sqrt2Half) := by
    have e1 := dfrexp_branch a
    have e2 := dfrexp_branch b
    rw [hbr] at e1
    constructor
    · intro h
      by_contra hc
      exact (e1.1 (e2.2 hc)) h
    · intro h
      by_contra hc
      exact (e2.1 (e1.2 hc)) h
  have hF : (Ival.mk (dlogArg a) (dlogArg b)).has (logArg x) := by
    unfold Ival.has
    simp only [dlogArg_toRat]
    unfold logArg
    by_cases hc : frexpFrac a < Sqrt2Half
    · have hcb : frexpFrac b < Sqrt2Half := hbr2.1 hc
      have hcx : frexpFrac x < Sqrt2Half := lt_of_le_of_lt fb hcb
      rw [if_pos hc, if_pos hcx, if_pos hcb]
      constructor
      · apply rnd_mono
        apply sub_le_sub_right
        apply rnd_mono
        linarith
      · apply rnd_mono
        apply sub_le_sub_right
        apply rnd_mono
        linarith
    · have hcb : ¬ frexpFrac b < Sqrt2Half := fun h => hc (hbr2.2 h)
      have hcx : ¬ frexpFrac x < Sqrt2Half := fun h => hc (lt_of_le_of_lt fa h)
      rw [if_neg hc, if_neg hcx, if_neg hcb]
      constructor
      · apply rnd_mono
        linarith
      · apply rnd_mono
        linarith
  have hk : (if frexpFrac x < Sqrt2Half then (bitLen x : ℚ) - 1 else (bitLen x : ℚ)) =
      (if Dy.le dSqrt2Half (dfrexp a) then Dy.ofNat (bitLen a)
        else Dy.ofNat (bitLen a - 1)).toRat := by
    rw [hx]
    have hb1 : 1 ≤ bitLen a := (bitLen_spec a (by omega)).1
    by_cases hc : frexpFrac a < Sqrt2Half
    · have hd : ¬ Dy.le dSqrt2Half (dfrexp a) = true := fun h => (dfrexp_branch a).1 h hc
      rw [if_pos (lt_of_le_of_lt fb (hbr2.1 hc)), if_neg hd, Dy.toRat_ofNat,
        Nat.cast_sub hb1]
      norm_num
    · have hd : Dy.le dSqrt2Half (dfrexp a) = true := (dfrexp_branch a).2 hc
      rw [if_neg (fun h => hc (lt_of_le_of_lt fa h)), if_pos hd, Dy.toRat_ofNat]
  rw [Log_eq, hk]
  exact logTailI_sound (F := Ival.mk (dlogArg a) (dlogArg b)) _ hF hpos

theorem Dy.ceilIs_sound (q : Dy) (c : Nat) (hc : 1 ≤ c) (h : Dy.ceilIs q c = true) :
    ((c : ℚ) - 1 < q.toRat) ∧ q.toRat ≤ (c : ℚ) := by
  unfold Dy.ceilIs at h
  simp only [Bool.and_eq_true, Bool.not_eq_true', ← Bool.not_eq_true] at h
  obtain ⟨h1, h2⟩ := h
  rw [Dy.le_iff, Dy.toRat_ofNat] at h1
  rw [Dy.le_iff, Dy.toRat_ofNat, Nat.cast_sub hc] at h2
  refine ⟨?_, h1⟩
  push_cast at h2
  exact not_le.1 h2

theorem checkSeg_sound {D : Dy} {c a b : Nat} (hD : 0 < D.toRat)
    (h : checkSeg D c a b = true) {x : Nat} (h1 : a ≤ x) (h2 : x ≤ b) :
    ⌈fdiv (Log x) D.toRat⌉ = (c : Int) := by
  unfold checkSeg at h
  simp only [Bool.and_eq_true, decide_eq_true_eq, beq_iff_eq, Bool.not_eq_true',
    ← Bool.not_eq_true] at h
  obtain ⟨⟨⟨⟨⟨⟨⟨hc, ha⟩, _⟩, hab⟩, hbr⟩, hpos⟩, hlo⟩, hhi⟩ := h
  have hpos2 : 0 < (Dy.add (Dy.ofNat 2) (dlogArg a)).toRat := by
    rw [Dy.le_iff, Dy.toRat_ofNat] at hpos
    push_cast at hpos
    exact not_le.1 hpos
  have hI := LogI_sound ha hab hbr hpos2 h1 h2
  have hm := Dy.m_pos_of_toRat_pos D hD
  have l1 : fdiv (LogI a b).lo.toRat D.toRat ≤ fdiv (Log x) D.toRat :=
    rnd_mono (div_le_div_of_nonneg_right hI.1 (le_of_lt hD))
  have l2 : fdiv (Log x) D.toRat ≤ fdiv (LogI a b).hi.toRat D.toRat :=
    rnd_mono (div_le_div_of_nonneg_right hI.2 (le_of_lt hD))
  have c1 := Dy.ceilIs_sound _ c hc hlo
  have c2 := Dy.ceilIs_sound _ c hc hhi
  rw [Dy.div_toRat _ _ hm] at c1 c2
  rw [Int.ceil_eq_iff]
  push_cast
  exact ⟨lt_of_lt_of_le c1.1 l1, le_trans l2 c2.2⟩

theorem checkSegs_sound {D : Dy} {c : Nat} (hD : 0 < D.toRat) (l : List Nat) :
    ∀ a : Nat, checkSegs D c a l = true →
      ∀ x : Nat, a ≤ x → x < segsEnd a l → ⌈fdiv (Log x) D.toRat⌉ = (c : Int) := by
  induction l with
  | nil =>
    intro a _ x h1 h2
    simp only [segsEnd] at h2
    omega
  | cons b l ih =>
    intro a h x h1 h2
    simp only [checkSegs, Bool.and_eq_true] at h
    simp only [segsEnd] at h2
    by_cases hx : x ≤ b
    · exact checkSeg_sound hD h.1 h1 hx
    · exact ih (b + 1) h.2 x (by omega) h2

theorem logTen_toRat : logTen.toRat = mkRat 2592480341699211 (2 ^ 50) := dy_const _ 50

theorem logTen_pos : 0 < logTen.toRat := by
  rw [logTen_toRat, Rat.mkRat_eq_div]
  positivity

theorem Log_MaxPeers : Log MaxPeers = logTen.toRat := by
  rw [logTen_toRat]
  decide!

theorem ceilLog_0 : ⌈fdiv (Log 1) logTen.toRat⌉ = ((0 : Nat) : Int) := by
  rw [logTen_toRat]
  decide!

theorem logCert1_ok :
    checkSegs logTen 1 2 logCert1 = true ∧
      segsEnd 2 logCert1 = 11 := by
  decide!

theorem ceilLog_1 (x : Nat) (h1 : 1 < x) (h2 : x ≤ 10) :
    ⌈fdiv (Log x) logTen.toRat⌉ = ((1 : Nat) : Int) :=
  checkSegs_sound logTen_pos logCert1 2 logCert1_ok.1 x h1
    (by rw [logCert1_ok.2]; omega)

theorem logCert2_ok :
    checkSegs logTen 2 11 logCert2 = true ∧
      segsEnd 11 logCert2 = 101 := by
  decide!

theorem ceilLog_2 (x : Nat) (h1 : 10 < x) (h2 : x ≤ 100) :
    ⌈fdiv (Log x) logTen.toRat⌉ = ((2 : Nat) : Int) :=
  checkSegs_sound logTen_pos logCert2 11 logCert2_ok.1 x h1
    (by rw [logCert2_ok.2]; omega)

theorem logCert3_ok :
    checkSegs logTen 3 101 logCert3 = true ∧
      segsEnd 101 logCert3 = 1001 := by
  decide!

theorem ceilLog_3 (x : Nat) (h1 : 100 < x) (h2 : x ≤ 1000) :
    ⌈fdiv (Log x) logTen.toRat⌉ = ((3 : Nat) : Int) :=
  checkSegs_sound logTen_pos logCert3 101 logCert3_ok.1 x h1
    (by rw [logCert3_ok.2]; omega)

theorem logCert4_ok :
    checkSegs logTen 4 1001 logCert4 = true ∧
      segsEnd 1001 logCert4 = 10001 := by
  decide!

theorem ceilLog_4 (x : Nat) (h1 : 1000 < x) (h2 : x ≤ 10000) :
    ⌈fdiv (Log x) logTen.toRat⌉ = ((4 : Nat) : Int) :=
  checkSegs_sound logTen_pos logCert4 1001 logCert4_ok.1 x h1
    (by rw [logCert4_ok.2]; omega)

theorem logCert5_ok :
    checkSegs logTen 5 10001 logCert5 = true ∧
      segsEnd 10001 logCert5 = 100001 := by
  decide!

theorem ceilLog_5 (x : Nat) (h1 : 10000 < x) (h2 : x ≤ 100000) :
    ⌈fdiv (Log x) logTen.toRat⌉ = ((5 : Nat) : Int) :=
  checkSegs_sound logTen_pos logCert5 10001 logCert5_ok.1 x h1
    (by rw [logCert5_ok.2]; omega)

theorem logCert6_ok :
    checkSegs logTen 6 100001 logCert6 = true ∧
      segsEnd 100001 logCert6 = 1000001 := by
  decide!

theorem ceilLog_6 (x : Nat) (h1 : 100000 < x) (h2 : x ≤ 1000000) :
    ⌈fdiv (Log x) logTen.toRat⌉ = ((6 : Nat) : Int) :=
  checkSegs_sound logTen_pos logCert6 100001 logCert6_ok.1 x h1
    (by rw [logCert6_ok.2]; omega)

theorem logCert7_ok :
    checkSegs logTen 7 1000001 logCert7 = true ∧
      segsEnd 1000001 logCert7 = 10000001 := by
  decide!

theorem ceilLog_7 (x : Nat) (h1 : 1000000 < x) (h2 : x ≤ 10000000) :
    ⌈fdiv (Log x) logTen.toRat⌉ = ((7 : Nat) : Int) :=
  checkSegs_sound logTen_pos logCert7 1000001 logCert7_ok.1 x h1
    (by rw [logCert7_ok.2]; omega)

theorem logCert8_ok :
    checkSegs logTen 8 10000001 logCert8 = true ∧
      segsEnd 10000001 logCert8 = 100000001 := by
  decide!

theorem ceilLog_8 (x : Nat) (h1 : 10000000 < x) (h2 : x ≤ 100000000) :
    ⌈fdiv (Log x) logTen.toRat⌉ = ((8 : Nat) : Int) :=
  checkSegs_sound logTen_pos logCert8 10000001 logCert8_ok.1 x h1
    (by rw [logCert8_ok.2]; omega)

theorem logCert9_ok :
    checkSegs logTen 9 100000001 logCert9 = true ∧
      segsEnd 100000001 logCert9 = 1000000001 := by
  decide!

theorem ceilLog_9 (x : Nat) (h1 : 100000000 < x) (h2 : x ≤ 1000000000) :
    ⌈fdiv (Log x) logTen.toRat⌉ = ((9 : Nat) : Int) :=
  checkSegs_sound logTen_pos logCert9 100000001 logCert9_ok.1 x h1
    (by rw [logCert9_ok.2]; omega)

theorem logCert10_ok :
    checkSegs logTen 10 1000000001 logCert10 = true ∧
      segsEnd 1000000001 logCert10 = 10000000001 := by
  decide!

theorem ceilLog_10 (x : Nat) (h1 : 1000000000 < x) (h2 : x ≤ 10000000000) :
    ⌈fdiv (Log x) logTen.toRat⌉ = ((10 : Nat) : Int) :=
  checkSegs_sound logTen_pos logCert10 1000000001 logCert10_ok.1 x h1
    (by rw [logCert10_ok.2]; omega)

theorem logCert11_ok :
    checkSegs logTen 11 10000000001 logCert11 = true ∧
      segsEnd 10000000001 logCert11 = 100000000001 := by
  decide!

theorem ceilLog_11 (x : Nat) (h1 : 10000000000 < x) (h2 : x ≤ 100000000000) :
    ⌈fdiv (Log x) logTen.toRat⌉ = ((11 : Nat) : Int) :=
  checkSegs_sound logTen_pos logCert11 10000000001 logCert11_ok.1 x h1
    (by rw [logCert11_ok.2]; omega)

theorem logCert12_ok :
    checkSegs logTen 12 100000000001 logCert12 = true ∧
      segsEnd 100000000001 logCert12 = 1000000000001 := by
  decide!

theorem ceilLog_12 (x : Nat) (h1 : 100000000000 < x) (h2 : x ≤ 1000000000000) :
    ⌈fdiv (Log x) logTen.toRat⌉ = ((12 : Nat) : Int) :=
  checkSegs_sound logTen_pos logCert12 100000000001 logCert12_ok.1 x h1
    (by rw [logCert12_ok.2]; omega)

theorem logCert13_ok :
    checkSegs logTen 13 1000000000001 logCert13 = true ∧
      segsEnd 1000000000001 logCert13 = 10000000000001 := by
  decide!

theorem ceilLog_13 (x : Nat) (h1 : 1000000000000 < x) (h2 : x ≤ 10000000000000) :
    ⌈fdiv (Log x) logTen.toRat⌉ = ((13 : Nat) : Int) :=
  checkSegs_sound logTen_pos logCert13 1000000000001 logCert13_ok.1 x h1
    (by rw [logCert13_ok.2]; omega)

theorem logCert14_ok :
    checkSegs logTen 14 10000000000001 logCert14 = true ∧
      segsEnd 10000000000001 logCert14 = 100000000000001 := by
  decide!

theorem ceilLog_14 (x : Nat) (h1 : 10000000000000 < x) (h2 : x ≤ 100000000000000) :
    ⌈fdiv (Log x) logTen.toRat⌉ = ((14 : Nat) : Int) :=
  checkSegs_sound logTen_pos logCert14 10000000000001 logCert14_ok.1 x h1
    (by rw [logCert14_ok.2]; omega)

theorem logCert15_ok :
    checkSegs logTen 15 100000000000001 logCert15 = true ∧
      segsEnd 100000000000001 logCert15 = 1000000000000001 := by
  decide!

theorem ceilLog_15 (x : Nat) (h1 : 100000000000000 < x) (h2 : x ≤ 1000000000000000) :
    ⌈fdiv (Log x) logTen.toRat⌉ = ((15 : Nat) : Int) :=
  checkSegs_sound logTen_pos logCert15 100000000000001 logCert15_ok.1 x h1
    (by rw [logCert15_ok.2]; omega)

theorem ceilLog_decade (k x : Nat) (hk : k ≤ 15) (hx : 1 ≤ x) (hlo : k ≠ 0 → 10 ^ (k - 1) < x)
    (hup : x ≤ 10 ^ k) : ⌈fdiv (Log x) logTen.toRat⌉ = (k : Int) := by
  interval_cases k
  · have e : x = 1 := by
      norm_num at hup
      omega
    subst e
    exact ceilLog_0
  · exact ceilLog_1 x (by simpa using hlo) (by simpa using hup)
  · exact ceilLog_2 x (by simpa using hlo) (by simpa using hup)
  · exact ceilLog_3 x (by simpa using hlo) (by simpa using hup)
  · exact ceilLog_4 x (by simpa using hlo) (by simpa using hup)
  · exact ceilLog_5 x (by simpa using hlo) (by simpa using hup)
  · exact ceilLog_6 x (by simpa using hlo) (by simpa using hup)
  · exact ceilLog_7 x (by simpa using hlo) (by simpa using hup)
  · exact ceilLog_8 x (by simpa using hlo) (by simpa using hup)
  · exact ceilLog_9 x (by simpa using hlo) (by simpa using hup)
  · exact ceilLog_10 x (by simpa using hlo) (by simpa using hup)
  · exact ceilLog_11 x (by simpa using hlo) (by simpa using hup)
  · exact ceilLog_12 x (by simpa using hlo) (by simpa using hup)
  · exact ceilLog_13 x (by simpa using hlo) (by simpa using hup)
  · exact ceilLog_14 x (by simpa using hlo) (by simpa using hup)
  · exact ceilLog_15 x (by simpa using hlo) (by simpa using hup)

theorem ceilLogRatioF64_eq_clog (n : Nat) (h1 : 1 ≤ n) (h2 : n ≤ 10 ^ 15) :
    ceilLogRatioF64 (n : Int) = Nat.clog 10 n := by
  have hk : Nat.clog 10 n ≤ 15 := (Nat.le_pow_iff_clog_le (by norm_num)).1 h2
  have hup : n ≤ 10 ^ Nat.clog 10 n := Nat.le_pow_clog (by norm_num) n
  have hlo : Nat.clog 10 n ≠ 0 → 10 ^ (Nat.clog 10 n - 1) < n := by
    intro h0
    apply (Nat.pow_lt_iff_lt_clog (by norm_num)).2
    omega
  have h := ceilLog_decade (Nat.clog 10 n) n hk h1 hlo hup
  unfold ceilLogRatioF64
  rw [if_neg (by omega), Int.toNat_ofNat, Log_MaxPeers, h, Int.toNat_ofNat]

/-! ## maxToleratedHops -/

theorem float64OfNat_of_lt (n : Nat) (h : n < 2 ^ 53) : float64OfNat n = n := by
  unfold float64OfNat
  rw [if_pos h]

theorem float64OfInt_of_le (n : Int) (h0 : 0 ≤ n) (h : n < 2 ^ 53) : float64OfInt n = n := by
  have hn : n.toNat < 2 ^ 53 := by omega
  simp [float64OfInt, h0, float64OfNat_of_lt _ hn]

theorem float64OfNat_collision : float64OfNat (10 ^ 16 + 1) = float64OfNat (10 ^ 16) := by
  have h1 : Nat.log2 (10 ^ 16 + 1) = 53 := by
    rw [Nat.log2_eq_log_two, Nat.log_eq_iff] <;> norm_num
  have h2 : Nat.log2 (10 ^ 16) = 53 := by
    rw [Nat.log2_eq_log_two, Nat.log_eq_iff] <;> norm_num
  unfold float64OfNat
  rw [h1, h2]
  norm_num

theorem float64OfInt_collision : float64OfInt (10 ^ 16 + 1) = float64OfInt (10 ^ 16) := by
  have h := float64OfNat_collision
  unfold float64OfInt
  have e1 : ((10 : Int) ^ 16 + 1).toNat = 10 ^ 16 + 1 := by rfl
  have e2 : ((10 : Int) ^ 16).toNat = 10 ^ 16 := by rfl
  rw [if_pos (by norm_num), if_pos (by norm_num), e1, e2, h]

theorem getInfo_nodeCountInstance (n : Int) (now : Int) :
    ∃ i, (nodeCountInstance n).is.getInfo NodeCountGossip now = some i ∧ i.val = Value.int64 n := by
  refine ⟨{ key := NodeCountGossip, val := Value.int64 n, timestamp := 0, ttl := 0,
             seq := 1, hops := 0, nodeAddr := "self:1", peerAddr := none }, ?_, rfl⟩
  simp [nodeCountInstance, New, InfoStore.getInfo, Info.expired]

theorem maxToleratedHops_nodeCountInstance (f : Int → Nat) (n : Int) (now : Int) :
    (nodeCountInstance n).maxToleratedHops f now =
      some ((f (float64OfInt n) % 2 ^ 32 * 2 + 1) % 2 ^ 32) := by
  obtain ⟨i, hi, hv⟩ := getInfo_nodeCountInstance n now
  simp [Gossip.maxToleratedHops, hi, hv]

/-- C1, counterexample: whatever the float64 evaluation of the ceiling of the
logarithm ratio is, `maxToleratedHops` cannot return `2k+1` for the least `k`
with `10^k ≥ N` both at `N = 10^16` and at `N = 10^16 + 1`: the two node
counts convert to the same float64, so the results are equal, while the least
exponents are 16 and 17. -/
theorem maxToleratedHops_not_least_exponent :
    ¬ ∃ ceilLogRatio : Int → Nat,
      (nodeCountInstance (10 ^ 16)).maxToleratedHops ceilLogRatio 0
          = some (2 * Nat.clog 10 (10 ^ 16) + 1) ∧
      (nodeCountInstance (10 ^ 16 + 1)).maxToleratedHops ceilLogRatio 0
          = some (2 * Nat.clog 10 (10 ^ 16 + 1) + 1) := by
  rintro ⟨f, h1, h2⟩
  rw [maxToleratedHops_nodeCountInstance] at h1 h2
  rw [float64OfInt_collision, h1] at h2
  have c1 : Nat.clog 10 (10 ^ 16) = 16 := Nat.clog_pow 10 16 (by norm_num)
  have c2 : Nat.clog 10 (10 ^ 16 + 1) = 17 := by
    apply le_antisymm
    · exact (Nat.le_pow_iff_clog_le (by norm_num)).1 (by norm_num)
    · exact (Nat.pow_lt_iff_lt_clog (by norm_num)).1 (by norm_num)
  rw [c1, c2] at h2
  simp at h2

theorem ceilLogRatioF64_float64OfInt (N : Int) (h1 : 1 ≤ N) (h2 : N ≤ 10 ^ 15) :
    ceilLogRatioF64 (float64OfInt N) = Nat.clog 10 N.toNat ∧ Nat.clog 10 N.toNat ≤ 15 := by
  have hfl : float64OfInt N = N := float64OfInt_of_le N (by omega) (by
    calc N ≤ 10 ^ 15 := h2
      _ < 2 ^ 53 := by norm_num)
  have h3 : (N.toNat : Int) = N := Int.toNat_of_nonneg (by omega)
  have h4 : N.toNat ≤ 10 ^ 15 := by
    have : (N.toNat : Int) ≤ ((10 ^ 15 : Nat) : Int) := by
      rw [h3]
      push_cast
      exact h2
    exact_mod_cast this
  have h5 : 1 ≤ N.toNat := by omega
  constructor
  · rw [hfl]
    nth_rewrite 1 [← h3]
    exact ceilLogRatioF64_eq_clog N.toNat h5 h4
  · exact (Nat.le_pow_iff_clog_le (by norm_num)).1 h4

/-- C1, counterexample: with the nodeCount record `10^15 + 1`, which float64
holds exactly, `maxToleratedHops` returns 31: the float64 quotient
`Log(10^15 + 1) / Log(10)` rounds to 15, so the ceiling is 15. The least `k`
with `10^k ≥ 10^15 + 1` is 16, for which the claim says 33. -/
theorem maxToleratedHops_float64_past_1e15 :
    (nodeCountInstance (10 ^ 15 + 1)).maxToleratedHops ceilLogRatioF64 0 = some 31 ∧
    ((10 : Int) ^ 15 + 1 ≤ 10 ^ 16 ∧ ∀ j : Nat, (10 : Int) ^ 15 + 1 ≤ 10 ^ j → 16 ≤ j) := by
  constructor
  · have hfl : float64OfInt (10 ^ 15 + 1) = 1000000000000001 := by
      rw [float64OfInt_of_le _ (by norm_num) (by norm_num)]
      norm_num
    have hc : ceilLogRatioF64 1000000000000001 = 15 := by decide!
    rw [maxToleratedHops_nodeCountInstance, hfl, hc]
    rfl
  · refine ⟨by norm_num, fun j hj => ?_⟩
    by_contra hlt
    have hj15 : j ≤ 15 := by omega
    have : (10 : Int) ^ j ≤ 10 ^ 15 := pow_le_pow_right₀ (by norm_num) hj15
    omega

/-- C1, amended: let `N` be the int64 value of the non-expired `nodeCount`
record, or 1000 when there is no such record. For every `N` with
`1 ≤ N ≤ 10^15`, `maxToleratedHops`, with the ceiling of the logarithm ratio
evaluated in float64 arithmetic as Go's `math.Log` does, returns `2k+1` for the
least natural `k` with `10^k ≥ N`; when nodeCount is absent it returns 7. -/
theorem maxToleratedHops_float64 (g : Gossip) (now : Int) :
    (g.is.getInfo NodeCountGossip now = none →
      g.maxToleratedHops ceilLogRatioF64 now = some 7) ∧
    (∀ N : Int,
      ((g.is.getInfo NodeCountGossip now = none ∧ N = defaultNodeCount) ∨
        (∃ i, g.is.getInfo NodeCountGossip now = some i ∧ i.val = Value.int64 N)) →
      1 ≤ N → N ≤ 10 ^ 15 →
      ∃ k : Nat, N ≤ 10 ^ k ∧ (∀ j : Nat, N ≤ 10 ^ j → k ≤ j) ∧
        g.maxToleratedHops ceilLogRatioF64 now = some (2 * k + 1)) := by
  have hgen : ∀ N : Int,
      ((g.is.getInfo NodeCountGossip now = none ∧ N = defaultNodeCount) ∨
        (∃ i, g.is.getInfo NodeCountGossip now = some i ∧ i.val = Value.int64 N)) →
      1 ≤ N → N ≤ 10 ^ 15 →
      g.maxToleratedHops ceilLogRatioF64 now = some (2 * Nat.clog 10 N.toNat + 1) := by
    intro N hN h1 h2
    obtain ⟨hc, hk⟩ := ceilLogRatioF64_float64OfInt N h1 h2
    have hval : g.maxToleratedHops ceilLogRatioF64 now
        = some ((ceilLogRatioF64 (float64OfInt N) % 2 ^ 32 * 2 + 1) % 2 ^ 32) := by
      rcases hN with ⟨h, rfl⟩ | ⟨i, h, hv⟩
      · simp [Gossip.maxToleratedHops, h]
      · simp [Gossip.maxToleratedHops, h, hv]
    rw [hval, hc]
    congr 1
    omega
  constructor
  · intro hnone
    have h := hgen defaultNodeCount (Or.inl ⟨hnone, rfl⟩) (by decide) (by
      unfold defaultNodeCount
      norm_num)
    have e : defaultNodeCount.toNat = 10 ^ 3 := by rfl
    rw [h, e, Nat.clog_pow 10 3 (by norm_num)]
  · intro N hN h1 h2
    have h3 : (N.toNat : Int) = N := Int.toNat_of_nonneg (by omega)
    refine ⟨Nat.clog 10 N.toNat, ?_, ?_, hgen N hN h1 h2⟩
    · have := Nat.le_pow_clog (b := 10) (by norm_num) N.toNat
      calc N = (N.toNat : Int) := h3.symm
        _ ≤ ((10 ^ Nat.clog 10 N.toNat : Nat) : Int) := by exact_mod_cast this
        _ = 10 ^ Nat.clog 10 N.toNat := by push_cast; rfl
    · intro j hj
      apply (Nat.le_pow_iff_clog_le (by norm_num)).1
      have : (N.toNat : Int) ≤ ((10 ^ j : Nat) : Int) := by rw [h3]; push_cast; exact hj
      exact_mod_cast this

/-- C1, witness: an instance without a nodeCount record returns 7, and one
whose record holds 123456789 returns 19, the least `k` with
`10^k ≥ 123456789` being 9. -/
theorem maxToleratedHops_float64_witness :
    (New "self:1").maxToleratedHops ceilLogRatioF64 0 = some 7 ∧
    ∃ k : Nat, (123456789 : Int) ≤ 10 ^ k ∧ (∀ j : Nat, (123456789 : Int) ≤ 10 ^ j → k ≤ j) ∧
      (nodeCountInstance 123456789).maxToleratedHops ceilLogRatioF64 0 = some (2 * k + 1) :=
  ⟨(maxToleratedHops_float64 (New "self:1") 0).1 (by decide),
   (maxToleratedHops_float64 (nodeCountInstance 123456789) 0).2 123456789
     (Or.inr (getInfo_nodeCountInstance 123456789 0)) (by norm_num) (by norm_num)⟩

/-! ## Typed getters -/

theorem InfoStore.getInfo_some {s : InfoStore} {key : String} {now : Int} {i : Info}
    (h : s.getInfo key now = some i) : i ∈ s.Infos ∧ i.key = key ∧ i.expired now = false := by
  unfold InfoStore.getInfo at h
  cases hf : s.Infos.find? (fun i => decide (i.key = key)) with
  | none => simp [hf] at h
  | some j =>
    rw [hf] at h
    by_cases he : j.expired now = true
    · simp [he] at h
    · simp [he] at h
      subst h
      have hp := List.find?_some hf
      exact ⟨List.mem_of_find?_eq_some hf, by simpa using hp, by simpa using he⟩

/-- C10: each typed getter returns `(v, nil)` exactly when the info store's
`getInfo(key)` yields a non-expired record whose value has the getter's type
and equals `v`; otherwise it returns the zero value of the type with an error;
and the instance, with its info store, is unchanged. -/
theorem typed_getters_spec (g : Gossip) (key : String) (now : Int) :
    ((∀ v, (g.GetInt64Info key now).1 = (v, none) ↔
          ∃ i, g.is.getInfo key now = some i ∧ i.expired now = false ∧ i.val = Value.int64 v) ∧
      ((¬ ∃ i v, g.is.getInfo key now = some i ∧ i.val = Value.int64 v) →
          ∃ err, (g.GetInt64Info key now).1 = (0, some err)) ∧
      (g.GetInt64Info key now).2 = g) ∧
    ((∀ v, (g.GetFloat64Info key now).1 = (v, none) ↔
          ∃ i, g.is.getInfo key now = some i ∧ i.expired now = false ∧ i.val = Value.float64 v) ∧
      ((¬ ∃ i v, g.is.getInfo key now = some i ∧ i.val = Value.float64 v) →
          ∃ err, (g.GetFloat64Info key now).1 = (0, some err)) ∧
      (g.GetFloat64Info key now).2 = g) ∧
    ((∀ v, (g.GetStringInfo key now).1 = (v, none) ↔
          ∃ i, g.is.getInfo key now = some i ∧ i.expired now = false ∧ i.val = Value.string v) ∧
      ((¬ ∃ i v, g.is.getInfo key now = some i ∧ i.val = Value.string v) →
          ∃ err, (g.GetStringInfo key now).1 = ("", some err)) ∧
      (g.GetStringInfo key now).2 = g) := by
  cases h : g.is.getInfo key now with
  | none =>
    simp [Gossip.GetInt64Info, Gossip.GetFloat64Info, Gossip.GetStringInfo, Gossip.getInfo, h]
  | some i =>
    have hex := (InfoStore.getInfo_some h).2.2
    cases hv : i.val <;>
      simp [Gossip.GetInt64Info, Gossip.GetFloat64Info, Gossip.GetStringInfo, Gossip.getInfo, h,
        hv, hex]

/-! ## Address sets and the client map -/

theorem AddrSet.hasAddr_iff (s : AddrSet) (a : Addr) : s.hasAddr a = true ↔ a ∈ s.addrs := by
  simp [AddrSet.hasAddr]

theorem AddrSet.hasAddr_false_iff (s : AddrSet) (a : Addr) :
    s.hasAddr a = false ↔ a ∉ s.addrs := by
  simp [AddrSet.hasAddr]

theorem AddrSet.mem_removeAddr (s : AddrSet) (a b : Addr) :
    b ∈ (s.removeAddr a).addrs ↔ b ∈ s.addrs ∧ b ≠ a := by
  simp [AddrSet.removeAddr]

theorem AddrSet.removeAddr_maxSize (s : AddrSet) (a : Addr) :
    (s.removeAddr a).maxSize = s.maxSize := rfl

theorem AddrSet.removeAddr_len_le (s : AddrSet) (a : Addr) : (s.removeAddr a).len ≤ s.len := by
  simp [AddrSet.removeAddr, AddrSet.len, List.length_filter_le]

theorem AddrSet.removeAddr_len_lt (s : AddrSet) (a : Addr) (h : a ∈ s.addrs) :
    (s.removeAddr a).len < s.len := by
  unfold AddrSet.removeAddr AddrSet.len
  apply List.length_filter_lt_length_iff_exists.2
  exact ⟨a, h, by simp⟩

theorem AddrSet.mem_filter (s : AddrSet) (p : Addr → Bool) (a : Addr) :
    a ∈ (s.filter p).addrs ↔ a ∈ s.addrs ∧ p a = true := by
  simp [AddrSet.filter]

theorem AddrSet.addAddr_maxSize (s : AddrSet) (a : Addr) : (s.addAddr a).maxSize = s.maxSize := by
  unfold AddrSet.addAddr
  split
  · rfl
  · split <;> rfl

theorem AddrSet.addAddr_len_le (s : AddrSet) (a : Addr) (h : s.len ≤ s.maxSize) :
    (s.addAddr a).len ≤ s.maxSize := by
  unfold AddrSet.addAddr
  split
  · exact h
  · split
    · exact h
    · simp only [AddrSet.len, List.length_append, List.length_singleton] at *
      omega

theorem AddrSet.mem_addAddr_of_mem (s : AddrSet) (a b : Addr) (h : b ∈ s.addrs) :
    b ∈ (s.addAddr a).addrs := by
  unfold AddrSet.addAddr
  split
  · exact h
  · split
    · exact h
    · simp [h]

theorem AddrSet.mem_addAddr (s : AddrSet) (a b : Addr) (h : b ∈ (s.addAddr a).addrs) :
    b ∈ s.addrs ∨ b = a := by
  unfold AddrSet.addAddr at h
  split at h
  · exact Or.inl h
  · split at h
    · exact Or.inl h
    · simpa using h

theorem AddrSet.mem_addAddr_self (s : AddrSet) (a : Addr)
    (h : a ∈ s.addrs ∨ s.len < s.maxSize) : a ∈ (s.addAddr a).addrs := by
  unfold AddrSet.addAddr
  by_cases hm : a ∈ s.addrs
  · simp [AddrSet.hasAddr, hm]
  · have hl : s.len < s.maxSize := h.resolve_left hm
    simp [AddrSet.hasAddr, hm, Nat.not_le.2 hl]

theorem AddrSet.selectRandom_mem (s : AddrSet) (r : Nat) (a : Addr)
    (h : s.selectRandom r = some a) : a ∈ s.addrs := by
  unfold AddrSet.selectRandom at h
  exact List.mem_iff_getElem?.2 ⟨_, h⟩

theorem AddrSet.selectRandom_some (s : AddrSet) (r : Nat) (h : 0 < s.len) :
    ∃ a, s.selectRandom r = some a ∧ a ∈ s.addrs := by
  have hlt : r % s.addrs.length < s.addrs.length := Nat.mod_lt _ h
  refine ⟨s.addrs[r % s.addrs.length], ?_, List.getElem_mem _⟩
  unfold AddrSet.selectRandom
  exact List.getElem?_eq_getElem hlt

theorem AddrSet.len_pos_iff (s : AddrSet) : 0 < s.len ↔ ∃ a, a ∈ s.addrs := by
  unfold AddrSet.len
  rw [List.length_pos_iff_exists_mem]

theorem ClientMap.get_delete_self (m : ClientMap) (k : String) :
    (ClientMap.delete m k).get k = none := by
  induction m with
  | nil => rfl
  | cons p rest ih =>
    obtain ⟨k1, c⟩ := p
    simp only [ClientMap.delete] at ih ⊢
    by_cases h : k1 = k
    · simp [List.filter_cons, h]
      simpa using ih
    · simp [List.filter_cons, h, ClientMap.get]
      simpa using ih

theorem ClientMap.get_delete_ne (m : ClientMap) (k j : String) (h : j ≠ k) :
    (ClientMap.delete m k).get j = m.get j := by
  induction m with
  | nil => rfl
  | cons p rest ih =>
    obtain ⟨k1, c⟩ := p
    simp only [ClientMap.delete] at ih ⊢
    by_cases h1 : k1 = k
    · subst h1
      have : k1 ≠ j := fun e => h e.symm
      simp [List.filter_cons, ClientMap.get, this]
      simpa using ih
    · by_cases h2 : k1 = j
      · subst h2
        simp [List.filter_cons, h1, ClientMap.get]
      · simp [List.filter_cons, h1, ClientMap.get, h2]
        simpa using ih

theorem ClientMap.get_set_self (m : ClientMap) (k : String) (c : Client) :
    (ClientMap.set m k c).get k = some c := by
  simp [ClientMap.set, ClientMap.get]

theorem ClientMap.get_set_ne (m : ClientMap) (k j : String) (c : Client) (h : j ≠ k) :
    (ClientMap.set m k c).get j = m.get j := by
  have : k ≠ j := fun e => h e.symm
  simp [ClientMap.set, ClientMap.get, this, ClientMap.get_delete_ne m k j h]

theorem Gossip.mem_filterExtant (g : Gossip) (s : AddrSet) (a : Addr) :
    a ∈ (g.filterExtant s).addrs ↔ a ∈ s.addrs ∧ a ∉ g.outgoing.addrs ∧ a ∉ g.incoming.addrs := by
  simp only [Gossip.filterExtant, AddrSet.filter, AddrSet.hasAddr, List.mem_filter,
    Bool.not_eq_true', decide_eq_false_iff_not]
  tauto

/-! ## Bootstrap -/

theorem Gossip.startClient_events (g : Gossip) (a : Addr) :
    (g.startClient a).events = g.events ++ [Event.clientStarted a] := rfl

theorem Gossip.bootstrapIter_cases (g : Gossip) (now : Int) (r : Nat) (hc : g.closed = false) :
    ((0 < (g.filterExtant g.bootstraps).len ∧
        (g.outgoing.len = 0 ∨ g.is.getInfo SentinelGossip now = none)) →
      ∃ a, a ∈ (g.filterExtant g.bootstraps).addrs ∧
        a ∈ g.bootstraps.addrs ∧ a ∉ g.outgoing.addrs ∧ a ∉ g.incoming.addrs ∧
        g.bootstrapIter now r = some (g.startClient a, false) ∧
        (g.startClient a).events = g.events ++ [Event.clientStarted a]) ∧
    (¬ (0 < (g.filterExtant g.bootstraps).len ∧
        (g.outgoing.len = 0 ∨ g.is.getInfo SentinelGossip now = none)) →
      g.bootstrapIter now r = some (g, false)) := by
  constructor
  · rintro ⟨hav, hneed⟩
    obtain ⟨a, hsel, hmem⟩ := AddrSet.selectRandom_some _ r hav
    have hm := (Gossip.mem_filterExtant g g.bootstraps a).1 hmem
    refine ⟨a, hmem, hm.1, hm.2.1, hm.2.2, ?_, rfl⟩
    unfold Gossip.bootstrapIter
    simp only [hc, Bool.false_eq_true, if_false, hav, if_true, hsel]
    rcases hneed with h0 | hs
    · simp [h0]
    · simp [hs]
  · intro hn
    unfold Gossip.bootstrapIter
    simp only [hc, Bool.false_eq_true, if_false]
    by_cases hav : 0 < (g.filterExtant g.bootstraps).len
    · have hn2 : ¬ (g.outgoing.len = 0 ∨ g.is.getInfo SentinelGossip now = none) :=
        fun h => hn ⟨hav, h⟩
      push_neg at hn2
      obtain ⟨h1, h2⟩ := hn2
      have h1p : 0 < g.outgoing.len := Nat.pos_of_ne_zero h1
      obtain ⟨i, hi⟩ := Option.ne_none_iff_exists'.1 h2
      simp [hav, h1p, hi]
    · simp [hav]

/-- C2: on a non-closed instance one iteration of the bootstrap loop starts a
client exactly when `avail = bootstraps \ outgoing \ incoming` is non-empty
and (outgoing is empty or the sentinel is absent). When it does, the state is
that of one `startClient` call (one `clientStarted` event) and the dialled
address is in `avail`: in bootstraps, not in outgoing, not in incoming.
Otherwise the state, with its trace of events, is unchanged. -/
theorem bootstrapIter_spec (g : Gossip) (now : Int) (r : Nat) (hc : g.closed = false) :
    ((0 < (g.filterExtant g.bootstraps).len ∧
        (g.outgoing.len = 0 ∨ g.is.getInfo SentinelGossip now = none)) →
      ∃ a, a ∈ (g.filterExtant g.bootstraps).addrs ∧
        a ∈ g.bootstraps.addrs ∧ a ∉ g.outgoing.addrs ∧ a ∉ g.incoming.addrs ∧
        g.bootstrapIter now r = some (g.startClient a, false) ∧
        (g.startClient a).events = g.events ++ [Event.clientStarted a]) ∧
    (¬ (0 < (g.filterExtant g.bootstraps).len ∧
        (g.outgoing.len = 0 ∨ g.is.getInfo SentinelGossip now = none)) →
      g.bootstrapIter now r = some (g, false)) :=
  Gossip.bootstrapIter_cases g now r hc

/-- C2, witness: an instance with two bootstrap hosts and no client. -/
theorem bootstrapIter_spec_witness :
    bootstrapExample.closed = false ∧
    ∃ a, a ∈ (bootstrapExample.filterExtant bootstrapExample.bootstraps).addrs ∧
      a ∈ bootstrapExample.bootstraps.addrs ∧ a ∉ bootstrapExample.outgoing.addrs ∧
      a ∉ bootstrapExample.incoming.addrs ∧
      bootstrapExample.bootstrapIter 0 0 = some (bootstrapExample.startClient a, false) ∧
      (bootstrapExample.startClient a).events
        = bootstrapExample.events ++ [Event.clientStarted a] :=
  ⟨rfl, (bootstrapIter_spec bootstrapExample 0 0 rfl).1 ⟨by decide, Or.inl (by decide)⟩⟩

/-- C3, counterexample: with the node itself as the only bootstrap host,
`parseBootstrapAddresses` returns normally and the bootstrap set is empty. -/
theorem parseBootstrapAddresses_self_only :
    (selfBootstrapExample.parseBootstrapAddresses (fun s => [s]) (fun s => some s)
        "self:1").map (fun g1 => g1.bootstraps.len) = some 0 := by
  decide

/-- C3, amended: `parseBootstrapAddresses` aborts exactly when the bootstrap
set is empty before the own address is removed; when it returns, the set is
the one read from the flag without the own address (so it does not contain
it), and it is non-empty exactly when some bootstrap host differs from the
own address; nothing else of the instance changes. -/
theorem parseBootstrapAddresses_spec (split : String → List String)
    (resolve : String → Option Addr) (flag : String) (g : Gossip) :
    (g.parseBootstrapAddresses split resolve flag = none ↔
        (Gossip.addFlagAddresses split resolve flag g.bootstraps).len = 0) ∧
    (∀ g1, g.parseBootstrapAddresses split resolve flag = some g1 →
        g1.bootstraps.hasAddr g.is.NodeAddr = false ∧
        (∀ a, a ∈ g1.bootstraps.addrs ↔
          a ∈ (Gossip.addFlagAddresses split resolve flag g.bootstraps).addrs ∧ a ≠ g.is.NodeAddr) ∧
        (0 < g1.bootstraps.len ↔
          ∃ a, a ∈ (Gossip.addFlagAddresses split resolve flag g.bootstraps).addrs ∧
            a ≠ g.is.NodeAddr) ∧
        g1 = { g with bootstraps := g1.bootstraps }) := by
  unfold Gossip.parseBootstrapAddresses
  by_cases h : (Gossip.addFlagAddresses split resolve flag g.bootstraps).len = 0
  · simp [h]
  · simp only [h, if_false, false_iff, not_false_eq_true, true_and, reduceCtorEq]
    intro g1 hg
    cases hg
    refine ⟨?_, ?_, ?_, rfl⟩
    · rw [AddrSet.hasAddr_false_iff, AddrSet.mem_removeAddr]
      simp
    · intro a
      exact AddrSet.mem_removeAddr _ _ _
    · rw [AddrSet.len_pos_iff]
      simp only [AddrSet.mem_removeAddr]

/-! ## The tick of the manage loop -/

theorem InfoStore.mem_distant_aux (l : List Info) (acc : AddrSet) (a : Addr)
    (h : a ∈ (l.foldl (fun acc i => acc.addAddr i.nodeAddr) acc).addrs) :
    a ∈ acc.addrs ∨ ∃ i ∈ l, i.nodeAddr = a := by
  induction l generalizing acc with
  | nil => exact Or.inl h
  | cons i rest ih =>
    rcases ih (acc.addAddr i.nodeAddr) h with h1 | ⟨j, hj, hja⟩
    · rcases AddrSet.mem_addAddr _ _ _ h1 with h2 | h2
      · exact Or.inl h2
      · exact Or.inr ⟨i, List.mem_cons_self _ _, h2.symm⟩
    · exact Or.inr ⟨j, List.mem_cons_of_mem _ hj, hja⟩

theorem InfoStore.mem_distant (s : InfoStore) (maxHops : Nat) (a : Addr)
    (h : a ∈ (s.distant maxHops).addrs) : ∃ i ∈ s.Infos, maxHops < i.hops ∧ i.nodeAddr = a := by
  rcases InfoStore.mem_distant_aux _ _ a h with h1 | ⟨i, hi, hia⟩
  · simp [newAddrSet] at h1
  · rw [List.mem_filter] at hi
    exact ⟨i, hi.1, by simpa using hi.2, hia⟩

theorem Gossip.closeClient_outgoing (g g1 : Gossip) (a : Addr) (h : g.closeClient a = some g1) :
    g1.outgoing = g.outgoing ∧ g1.is = g.is ∧ g1.incoming = g.incoming ∧
      g1.bootstraps = g.bootstraps ∧ g1.closed = g.closed ∧ g1.exited = g.exited ∧
      g1.clients = g.clients.delete a := by
  unfold Gossip.closeClient at h
  cases hc : g.clients.get a with
  | none => simp [hc] at h
  | some c =>
    simp only [hc, Option.some.injEq] at h
    subst h
    exact ⟨rfl, rfl, rfl, rfl, rfl, rfl, rfl⟩

theorem Gossip.closeClient_events (g g1 : Gossip) (a : Addr) (h : g.closeClient a = some g1) :
    g1.events = g.events ∨ g1.events = g.events ++ [Event.clientClosed a] := by
  unfold Gossip.closeClient at h
  cases hc : g.clients.get a with
  | none => simp [hc] at h
  | some c =>
    simp only [hc, Option.some.injEq] at h
    subst h
    cases c.rpcClient <;> simp

/-- C4: on a tick with `H = maxToleratedHops()` and
`distant = distant(H) \ outgoing \ incoming`: if `distant` is empty the
instance is unchanged; if `distant` is non-empty and `|outgoing| < MaxPeers`,
the tick is one `startClient` call (one `clientStarted` event) to a member of
`distant`, an origin of a record with more than `H` hops that is in neither
outgoing nor incoming, and afterwards the address is in outgoing and in the
client map; if `distant` is non-empty and `|outgoing| ≥ MaxPeers`, no client
is started: outgoing is unchanged and the trace gains at most a close. The
capacity of the outgoing set is `MaxPeers`, as `New` makes it and as it stays
(`Reachable.outgoing_inv`). -/
theorem manageCase_tick_spec (ceilLogRatio : Int → Nat) (g : Gossip) (now : Int) (r : Nat)
    (H : Nat) (hH : g.maxToleratedHops ceilLogRatio now = some H)
    (hmax : g.outgoing.maxSize = MaxPeers) :
    ((g.filterExtant (g.is.distant H)).len = 0 →
      g.manageCase ceilLogRatio now r ManageEvent.checkTimeout = some g) ∧
    (0 < (g.filterExtant (g.is.distant H)).len → g.outgoing.len < MaxPeers →
      ∃ a, a ∈ (g.filterExtant (g.is.distant H)).addrs ∧
        (∃ i ∈ g.is.Infos, H < i.hops ∧ i.nodeAddr = a) ∧
        a ∉ g.outgoing.addrs ∧ a ∉ g.incoming.addrs ∧
        g.manageCase ceilLogRatio now r ManageEvent.checkTimeout = some (g.startClient a) ∧
        (g.startClient a).events = g.events ++ [Event.clientStarted a] ∧
        (g.startClient a).outgoing.hasAddr a = true ∧
        (g.startClient a).clients.get a = some (newClient a)) ∧
    (0 < (g.filterExtant (g.is.distant H)).len → ¬ g.outgoing.len < MaxPeers →
      ∀ g1, g.manageCase ceilLogRatio now r ManageEvent.checkTimeout = some g1 →
        g1.outgoing = g.outgoing ∧
        (g1.events = g.events ∨ ∃ v, g1.events = g.events ++ [Event.clientClosed v])) := by
  refine ⟨?_, ?_, ?_⟩
  · intro h0
    simp [Gossip.manageCase, hH, h0]
  · intro hpos hlt
    obtain ⟨a, hsel, hmem⟩ := AddrSet.selectRandom_some _ r hpos
    have hm := (Gossip.mem_filterExtant g _ a).1 hmem
    refine ⟨a, hmem, InfoStore.mem_distant _ _ _ hm.1, hm.2.1, hm.2.2, ?_, rfl, ?_, ?_⟩
    · simp [Gossip.manageCase, hH, hpos, hlt, hsel]
    · rw [AddrSet.hasAddr_iff]
      exact AddrSet.mem_addAddr_self _ _ (Or.inr (by rw [hmax]; exact hlt))
    · exact ClientMap.get_set_self _ _ _
  · intro hpos hge g1 hg
    simp only [Gossip.manageCase, hH, hpos, if_true, hge, if_false] at hg
    cases hco : g.connectedOutgoing with
    | none => simp [hco] at hg
    | some connected =>
      simp only [hco] at hg
      cases hl : g.is.leastUseful connected with
      | none =>
        simp only [hl, Option.some.injEq] at hg
        subst hg
        exact ⟨rfl, Or.inl rfl⟩
      | some v =>
        simp only [hl] at hg
        refine ⟨(Gossip.closeClient_outgoing g g1 v hg).1, ?_⟩
        rcases Gossip.closeClient_events g g1 v hg with h | h
        · exact Or.inl h
        · exact Or.inr ⟨v, h⟩

/-- C4, witness: an instance without clients that holds a record learned at 9
hops, with 7 tolerated hops. -/
theorem manageCase_tick_spec_witness :
    tickExample.maxToleratedHops (fun _ => 3) 0 = some 7 ∧
    tickExample.outgoing.maxSize = MaxPeers ∧
    tickExample.manageCase (fun _ => 3) 0 0 ManageEvent.checkTimeout
      = some (tickExample.startClient "far:1") :=
  ⟨by decide, rfl, by
    obtain ⟨a, ha, -, -, -, hrun, -⟩ :=
      (manageCase_tick_spec (fun _ => 3) tickExample 0 0 7 (by decide) rfl).2.1
        (by decide) (by decide)
    have : a = "far:1" := by
      have h2 : (tickExample.filterExtant (tickExample.is.distant 7)).addrs = ["far:1"] := by
        decide
      rw [h2] at ha
      simpa using ha
    rw [hrun, this]⟩

theorem InfoStore.leastOf_mem (s : InfoStore) (best : Addr) (l : List Addr) :
    s.leastOf best l = best ∨ s.leastOf best l ∈ l := by
  induction l generalizing best with
  | nil => exact Or.inl rfl
  | cons a rest ih =>
    unfold InfoStore.leastOf
    split
    · rcases ih a with h | h
      · exact Or.inr (by rw [h]; exact List.mem_cons_self _ _)
      · exact Or.inr (List.mem_cons_of_mem _ h)
    · rcases ih best with h | h
      · exact Or.inl h
      · exact Or.inr (List.mem_cons_of_mem _ h)

theorem InfoStore.leastUseful_mem (s : InfoStore) (c : AddrSet) (v : Addr)
    (h : s.leastUseful c = some v) : v ∈ c.addrs := by
  unfold InfoStore.leastUseful at h
  cases hc : c.addrs with
  | nil => simp [hc] at h
  | cons a l =>
    simp only [hc, Option.some.injEq] at h
    subst h
    rcases InfoStore.leastOf_mem s a l with h1 | h1
    · rw [h1]; exact List.mem_cons_self _ _
    · exact List.mem_cons_of_mem _ h1

theorem Gossip.connectedOutgoing_some (g : Gossip)
    (hent : ∀ a ∈ g.outgoing.addrs, g.clients.get a ≠ none) :
    ∃ connected, g.connectedOutgoing = some connected ∧
      ∀ a, a ∈ connected.addrs ↔
        a ∈ g.outgoing.addrs ∧ ∃ c, g.clients.get a = some c ∧ c.rpcClient = true := by
  have hall : g.outgoing.addrs.all (fun a => (g.clients.get a).isSome) = true := by
    rw [List.all_eq_true]
    intro a ha
    exact Option.isSome_iff_ne_none.2 (hent a ha)
  refine ⟨g.outgoing.filter (fun a =>
      match g.clients.get a with
      | some c => c.rpcClient
      | none => false), by simp only [Gossip.connectedOutgoing, hall, if_true], ?_⟩
  intro a
  rw [AddrSet.mem_filter]
  constructor
  · rintro ⟨ha, hp⟩
    refine ⟨ha, ?_⟩
    cases hc : g.clients.get a with
    | none => simp [hc] at hp
    | some c => exact ⟨c, rfl, by simpa [hc] using hp⟩
  · rintro ⟨ha, c, hc, hl⟩
    exact ⟨ha, by simp [hc, hl]⟩

/-- C5: on a tick where `distant(H) \ outgoing \ incoming` is non-empty,
`|outgoing| = MaxPeers` and every outgoing address has a client-map entry: the
victim is `leastUseful` of exactly the outgoing addresses whose client has a
live transport handle; if it is nil the instance is unchanged; if it is an
address `v`, the tick closes that client (one `clientClosed v` event, nothing
started), removes only the entry of `v` from the client map and leaves the
outgoing set and everything else unchanged. -/
theorem manageCase_tick_full_spec (ceilLogRatio : Int → Nat) (g : Gossip) (now : Int) (r : Nat)
    (H : Nat) (hH : g.maxToleratedHops ceilLogRatio now = some H)
    (hpos : 0 < (g.filterExtant (g.is.distant H)).len)
    (hfull : g.outgoing.len = MaxPeers)
    (hent : ∀ a ∈ g.outgoing.addrs, g.clients.get a ≠ none) :
    ∃ connected, g.connectedOutgoing = some connected ∧
      (∀ a, a ∈ connected.addrs ↔
        a ∈ g.outgoing.addrs ∧ ∃ c, g.clients.get a = some c ∧ c.rpcClient = true) ∧
      (g.is.leastUseful connected = none →
        g.manageCase ceilLogRatio now r ManageEvent.checkTimeout = some g) ∧
      (∀ v, g.is.leastUseful connected = some v →
        v ∈ connected.addrs ∧
        g.manageCase ceilLogRatio now r ManageEvent.checkTimeout
          = some { g with clients := g.clients.delete v
                          events := g.events ++ [Event.clientClosed v] } ∧
        (g.clients.delete v).get v = none ∧
        ∀ k, k ≠ v → (g.clients.delete v).get k = g.clients.get k) := by
  obtain ⟨connected, hco, hmem⟩ := Gossip.connectedOutgoing_some g hent
  have hge : ¬ g.outgoing.len < MaxPeers := by omega
  refine ⟨connected, hco, hmem, ?_, ?_⟩
  · intro hl
    simp [Gossip.manageCase, hH, hpos, hge, hco, hl]
  · intro v hl
    have hv := InfoStore.leastUseful_mem _ _ _ hl
    obtain ⟨-, c, hc, hlive⟩ := (hmem v).1 hv
    refine ⟨hv, ?_, ClientMap.get_delete_self _ _, fun k hk => ClientMap.get_delete_ne _ _ _ hk⟩
    simp [Gossip.manageCase, hH, hpos, hge, hco, hl, Gossip.closeClient, hc, hlive]

/-- C5, witness: ten clients, nine of them connected, and a record learned at
9 hops with 7 tolerated. -/
theorem manageCase_tick_full_spec_witness :
    fullExample.maxToleratedHops (fun _ => 3) 0 = some 7 ∧
    0 < (fullExample.filterExtant (fullExample.is.distant 7)).len ∧
    fullExample.outgoing.len = MaxPeers ∧
    (∀ a ∈ fullExample.outgoing.addrs, fullExample.clients.get a ≠ none) ∧
    ∃ connected, fullExample.connectedOutgoing = some connected ∧
      (∀ a, a ∈ connected.addrs ↔
        a ∈ fullExample.outgoing.addrs ∧
          ∃ c, fullExample.clients.get a = some c ∧ c.rpcClient = true) ∧
      (fullExample.is.leastUseful connected = none →
        fullExample.manageCase (fun _ => 3) 0 0 ManageEvent.checkTimeout = some fullExample) ∧
      (∀ v, fullExample.is.leastUseful connected = some v →
        v ∈ connected.addrs ∧
        fullExample.manageCase (fun _ => 3) 0 0 ManageEvent.checkTimeout
          = some { fullExample with clients := fullExample.clients.delete v
                                    events := fullExample.events ++ [Event.clientClosed v] } ∧
        (fullExample.clients.delete v).get v = none ∧
        ∀ k, k ≠ v → (fullExample.clients.delete v).get k = fullExample.clients.get k) :=
  ⟨by decide, by decide, by decide, by decide,
    manageCase_tick_full_spec (fun _ => 3) fullExample 0 0 7 (by decide) (by decide)
      (by decide) (by decide)⟩

/-! ## Disconnect notifications -/

/-- C6, the code at the failing input: ten clients are started, then an
eleventh, to `x:1`, which the full outgoing set does not take. When that client
disconnects with the forwarding address `f:1`, the disconnect case calls
`startClient` without the capacity test of the tick: a client to `f:1` is
started and gets a client-map entry, but `f:1` is not in the outgoing set
afterwards, which still holds its ten addresses. The claim, and the comment of
`startClient` (the client is added to the outgoing address set), say it is. -/
theorem manageCase_disconnected_forward_not_outgoing :
    (elevenClients.manageCase (fun _ => 3) 0 0 (ManageEvent.disconnected redirectedClient)).map
        (fun g1 => (g1.outgoing.hasAddr "f:1", (g1.clients.get "f:1").isSome, g1.outgoing.len))
      = some (false, true, 10) := by
  decide

/-- The disconnect case of the manage loop on every state. Without a
forwarding address `c.addr` is removed from outgoing and from the client map,
every other address keeps its membership in both and nothing is started. With
a forwarding address `f` a client to `f` is started in the same step (one
`clientStarted f` event) and `f` gets a new client-map entry; `c.addr` is
removed from both when `f` differs from it (when `f` is `c.addr` the new
client takes its place); `f` is in outgoing afterwards when it was already
there or the set, after the removal, is below its capacity, as it is whenever
`c.addr` was in a set within its capacity; every address other than `c.addr`
and `f` keeps its membership. -/
theorem manageCase_disconnected_spec (ceilLogRatio : Int → Nat) (g : Gossip) (now : Int)
    (r : Nat) (c : Client) :
    (c.forwardAddr = none →
      ∃ g1, g.manageCase ceilLogRatio now r (ManageEvent.disconnected c) = some g1 ∧
        g1.outgoing.hasAddr c.addr = false ∧ g1.clients.get c.addr = none ∧
        (∀ a, a ≠ c.addr →
          g1.outgoing.hasAddr a = g.outgoing.hasAddr a ∧ g1.clients.get a = g.clients.get a) ∧
        g1.events = g.events) ∧
    (∀ f, c.forwardAddr = some f →
      ∃ g1, g.manageCase ceilLogRatio now r (ManageEvent.disconnected c) = some g1 ∧
        g1.events = g.events ++ [Event.clientStarted f] ∧
        g1.clients.get f = some (newClient f) ∧
        (f ≠ c.addr → g1.outgoing.hasAddr c.addr = false ∧ g1.clients.get c.addr = none) ∧
        (∀ a, a ≠ c.addr → a ≠ f →
          g1.outgoing.hasAddr a = g.outgoing.hasAddr a ∧ g1.clients.get a = g.clients.get a) ∧
        (((f ∈ g.outgoing.addrs ∧ f ≠ c.addr) ∨
            (g.outgoing.removeAddr c.addr).len < g.outgoing.maxSize) →
          g1.outgoing.hasAddr f = true) ∧
        (c.addr ∈ g.outgoing.addrs → g.outgoing.len ≤ g.outgoing.maxSize →
          g1.outgoing.hasAddr f = true)) := by
  constructor
  · intro hf
    refine ⟨{ g with outgoing := g.outgoing.removeAddr c.addr
                     clients := g.clients.delete c.addr },
      by simp only [Gossip.manageCase, hf], ?_, ?_, ?_, rfl⟩
    · rw [AddrSet.hasAddr_false_iff, AddrSet.mem_removeAddr]
      simp
    · exact ClientMap.get_delete_self _ _
    · intro a ha
      refine ⟨?_, ClientMap.get_delete_ne _ _ _ ha⟩
      rw [Bool.eq_iff_iff, AddrSet.hasAddr_iff, AddrSet.hasAddr_iff, AddrSet.mem_removeAddr]
      simp [ha]
  · intro f hf
    have hroom : ((f ∈ g.outgoing.addrs ∧ f ≠ c.addr) ∨
        (g.outgoing.removeAddr c.addr).len < g.outgoing.maxSize) →
        f ∈ ((g.outgoing.removeAddr c.addr).addAddr f).addrs := by
      intro h
      apply AddrSet.mem_addAddr_self
      rcases h with h | h
      · exact Or.inl ((AddrSet.mem_removeAddr _ _ _).2 h)
      · exact Or.inr h
    refine ⟨({ g with outgoing := g.outgoing.removeAddr c.addr
                      clients := g.clients.delete c.addr } : Gossip).startClient f,
      by simp only [Gossip.manageCase, hf], rfl, ClientMap.get_set_self _ _ _,
      ?_, ?_, ?_, ?_⟩
    · intro hne
      constructor
      · rw [AddrSet.hasAddr_false_iff]
        intro hmem
        rcases AddrSet.mem_addAddr _ _ _ hmem with h | h
        · exact ((AddrSet.mem_removeAddr _ _ _).1 h).2 rfl
        · exact hne h.symm
      · show (ClientMap.set (ClientMap.delete g.clients c.addr) f (newClient f)).get c.addr = none
        rw [ClientMap.get_set_ne _ _ _ _ (fun e => hne e.symm)]
        exact ClientMap.get_delete_self _ _
    · intro a ha haf
      constructor
      · rw [Bool.eq_iff_iff, AddrSet.hasAddr_iff, AddrSet.hasAddr_iff]
        constructor
        · intro hmem
          rcases AddrSet.mem_addAddr _ _ _ hmem with h | h
          · exact ((AddrSet.mem_removeAddr _ _ _).1 h).1
          · exact absurd h haf
        · intro hmem
          exact AddrSet.mem_addAddr_of_mem _ _ _ ((AddrSet.mem_removeAddr _ _ _).2 ⟨hmem, ha⟩)
      · show (ClientMap.set (ClientMap.delete g.clients c.addr) f (newClient f)).get a = _
        rw [ClientMap.get_set_ne _ _ _ _ haf]
        exact ClientMap.get_delete_ne _ _ _ ha
    · intro h
      rw [AddrSet.hasAddr_iff]
      exact hroom h
    · intro hmem hle
      rw [AddrSet.hasAddr_iff]
      apply hroom
      right
      have := AddrSet.removeAddr_len_lt _ _ hmem
      omega

/-! ## The stall check -/

theorem Gossip.stallCheck_fields (g : Gossip) (now : Int) :
    (g.stallCheck now).outgoing = g.outgoing ∧ (g.stallCheck now).bootstraps = g.bootstraps ∧
    (g.stallCheck now).incoming = g.incoming ∧ (g.stallCheck now).is = g.is ∧
    (g.stallCheck now).clients = g.clients ∧ (g.stallCheck now).closed = g.closed ∧
    (g.stallCheck now).exited = g.exited := by
  unfold Gossip.stallCheck
  split
  · exact ⟨rfl, rfl, rfl, rfl, rfl, rfl, rfl⟩
  · split <;> exact ⟨rfl, rfl, rfl, rfl, rfl, rfl, rfl⟩

theorem Gossip.stallCheck_events (g : Gossip) (now : Int) :
    (((g.outgoing.len = 0 ∧ 0 < (g.filterExtant g.bootstraps).len) ∨
        g.is.getInfo SentinelGossip now = none) →
      (g.stallCheck now).events = g.events ++ [Event.stalledSignal]) ∧
    (¬ ((g.outgoing.len = 0 ∧ 0 < (g.filterExtant g.bootstraps).len) ∨
        g.is.getInfo SentinelGossip now = none) →
      (g.stallCheck now).events = g.events) := by
  unfold Gossip.stallCheck
  by_cases h1 : g.outgoing.len = 0 ∧ 0 < (g.filterExtant g.bootstraps).len
  · simp [h1]
  · by_cases h2 : g.is.getInfo SentinelGossip now = none
    · simp [h1, h2]
    · have h3 : (g.is.getInfo SentinelGossip now).isNone = false := by
        cases h : g.is.getInfo SentinelGossip now with
        | none => exact absurd h h2
        | some i => rfl
      simp [h1, h2, h3]

theorem Gossip.filterExtant_congr (g g1 : Gossip) (s : AddrSet)
    (ho : g1.outgoing = g.outgoing) (hi : g1.incoming = g.incoming) :
    g1.filterExtant s = g.filterExtant s := by
  unfold Gossip.filterExtant
  rw [ho, hi]

/-- C7, counterexample: an instance with bootstrap hosts `b:1` and `c:1` and
a client to `b:1` is closed; on the next tick the manage loop goes on (the
outgoing set still holds `b:1`), the sentinel is absent and `c:1` is an
available bootstrap host, so stalled is signalled; but the bootstrap
iteration run on that state leaves its loop and starts no client. -/
theorem stalled_closed_starts_no_client :
    closingExample.map (fun q => (q.2, q.1.closed)) = some (false, true) ∧
    closingExample.map (fun q => q.1.is.getInfo SentinelGossip 0) = some none ∧
    closingExample.map (fun q => (q.1.filterExtant q.1.bootstraps).addrs) = some ["c:1"] ∧
    closingExample.map (fun q => q.1.events.getLast?) = some (some Event.stalledSignal) ∧
    closingExample.bind (fun q => q.1.bootstrapIter 0 0) = closingExample.map (fun q => (q.1, true)) :=
  ⟨by decide, by decide, by decide, by decide, by decide⟩

/-- C7, amended: after an event handled by the manage loop, on the resulting
state, stalled is signalled exactly when (`|outgoing| = 0` and
`bootstraps \ outgoing \ incoming` is non-empty) or the sentinel is absent or
expired, and then once; the stall check changes nothing else. When the
sentinel is absent and `bootstraps \ outgoing \ incoming` is non-empty,
stalled is signalled, and the bootstrap iteration run on that state starts a
client to an available bootstrap host if the instance is not closed, and
leaves its loop without starting one if it is closed. -/
theorem manageIter_stall_spec (ceilLogRatio : Int → Nat) (g : Gossip) (now : Int) (r : Nat)
    (ev : ManageEvent) (g1 : Gossip) (leave : Bool)
    (h : g.manageIter ceilLogRatio now r ev = some (g1, leave)) :
    ∃ gc, g.manageCase ceilLogRatio now r ev = some gc ∧
      (g1.outgoing = gc.outgoing ∧ g1.bootstraps = gc.bootstraps ∧ g1.incoming = gc.incoming ∧
        g1.is = gc.is ∧ g1.clients = gc.clients ∧ g1.closed = gc.closed ∧
        g1.exited = gc.exited) ∧
      (((g1.outgoing.len = 0 ∧ 0 < (g1.filterExtant g1.bootstraps).len) ∨
          g1.is.getInfo SentinelGossip now = none) →
        g1.events = gc.events ++ [Event.stalledSignal]) ∧
      (¬ ((g1.outgoing.len = 0 ∧ 0 < (g1.filterExtant g1.bootstraps).len) ∨
          g1.is.getInfo SentinelGossip now = none) →
        g1.events = gc.events) ∧
      (g1.is.getInfo SentinelGossip now = none → 0 < (g1.filterExtant g1.bootstraps).len →
        g1.events = gc.events ++ [Event.stalledSignal] ∧
        (g1.closed = false → ∀ r2, ∃ a, a ∈ (g1.filterExtant g1.bootstraps).addrs ∧
          g1.bootstrapIter now r2 = some (g1.startClient a, false) ∧
          (g1.startClient a).events = g1.events ++ [Event.clientStarted a]) ∧
        (g1.closed = true → ∀ r2, g1.bootstrapIter now r2 = some (g1, true))) := by
  unfold Gossip.manageIter at h
  cases hc : g.manageCase ceilLogRatio now r ev with
  | none => simp [hc] at h
  | some gc =>
    simp only [hc, Option.some.injEq, Prod.mk.injEq] at h
    obtain ⟨hg, -⟩ := h
    subst hg
    have hf := Gossip.stallCheck_fields gc now
    have he := Gossip.stallCheck_events gc now
    obtain ⟨ho, hb, hi, his, hcl, hclosed, hex⟩ := hf
    have hfe : (gc.stallCheck now).filterExtant (gc.stallCheck now).bootstraps
        = gc.filterExtant gc.bootstraps := by
      rw [hb]
      exact Gossip.filterExtant_congr _ _ _ ho hi
    refine ⟨gc, rfl, ⟨ho, hb, hi, his, hcl, hclosed, hex⟩, ?_, ?_, ?_⟩
    · rw [ho, hfe, his]
      exact he.1
    · rw [ho, hfe, his]
      exact he.2
    · intro hs hav
      refine ⟨?_, ?_, ?_⟩
      · apply he.1
        right
        rw [← his]
        exact hs
      · intro hopen r2
        obtain ⟨a, ha, -, -, -, hrun, hev⟩ :=
          (Gossip.bootstrapIter_cases (gc.stallCheck now) now r2 hopen).1 ⟨hav, Or.inr hs⟩
        exact ⟨a, ha, hrun, hev⟩
      · intro hcl2 r2
        simp [Gossip.bootstrapIter, hcl2]

/-- C7, witness: a tick on an instance with two bootstrap hosts, no client and
no sentinel: stalled is signalled once and the loop goes on. -/
theorem manageIter_stall_spec_witness :
    bootstrapExample.manageIter (fun _ => 3) 0 0 ManageEvent.checkTimeout
      = some ({ bootstrapExample with events := [Event.stalledSignal] }, false) ∧
    ∃ a, a ∈ (bootstrapExample.filterExtant bootstrapExample.bootstraps).addrs ∧
      ({ bootstrapExample with events := [Event.stalledSignal] } : Gossip).bootstrapIter 0 0
        = some (({ bootstrapExample with events := [Event.stalledSignal] } : Gossip).startClient a,
            false) :=
  ⟨by decide, by
    obtain ⟨gc, -, -, -, -, hb⟩ :=
      manageIter_stall_spec (fun _ => 3) bootstrapExample 0 0 ManageEvent.checkTimeout
        { bootstrapExample with events := [Event.stalledSignal] } false (by decide)
    obtain ⟨a, ha, hrun, -⟩ := (hb (by decide) (by decide)).2.1 rfl 0
    exact ⟨a, ha, hrun⟩⟩

/-! ## Invariants of the reachable states -/

/-- The outgoing set is within its capacity, and the capacity is `MaxPeers`. -/
theorem Gossip.startClient_inv (g : Gossip) (a : Addr)
    (h : g.outgoing.len ≤ g.outgoing.maxSize ∧ g.outgoing.maxSize = MaxPeers) :
    (g.startClient a).outgoing.len ≤ (g.startClient a).outgoing.maxSize ∧
      (g.startClient a).outgoing.maxSize = MaxPeers := by
  show (g.outgoing.addAddr a).len ≤ (g.outgoing.addAddr a).maxSize ∧
      (g.outgoing.addAddr a).maxSize = MaxPeers
  rw [AddrSet.addAddr_maxSize]
  exact ⟨AddrSet.addAddr_len_le _ _ h.1, h.2⟩

theorem Gossip.closeAll_outgoing (l : List Addr) (g g1 : Gossip) (h : g.closeAll l = some g1) :
    g1.outgoing = g.outgoing := by
  induction l generalizing g with
  | nil =>
    simp only [Gossip.closeAll, Option.some.injEq] at h
    rw [h]
  | cons a rest ih =>
    unfold Gossip.closeAll at h
    cases hc : g.closeClient a with
    | none => simp [hc] at h
    | some g2 =>
      simp only [hc] at h
      rw [ih g2 h, (Gossip.closeClient_outgoing g g2 a hc).1]

theorem Gossip.Close_outgoing (g g1 : Gossip) (ch : Option (List (Option String)))
    (h : g.Close = some (g1, ch)) : g1.outgoing = g.outgoing := by
  unfold Gossip.Close at h
  simp only at h
  split at h
  · simp at h
  · rename_i g2 hg2
    simp only [Option.some.injEq, Prod.mk.injEq] at h
    rw [← h.1]
    have h2 := Gossip.closeAll_outgoing _ _ _ hg2
    exact h2

theorem Gossip.manageCase_inv (ceilLogRatio : Int → Nat) (g g1 : Gossip) (now : Int) (r : Nat)
    (ev : ManageEvent) (h : g.manageCase ceilLogRatio now r ev = some g1)
    (hi : g.outgoing.len ≤ g.outgoing.maxSize ∧ g.outgoing.maxSize = MaxPeers) :
    g1.outgoing.len ≤ g1.outgoing.maxSize ∧ g1.outgoing.maxSize = MaxPeers := by
  cases ev with
  | disconnected c =>
    have hrem : ((g.outgoing.removeAddr c.addr).len ≤ (g.outgoing.removeAddr c.addr).maxSize ∧
        (g.outgoing.removeAddr c.addr).maxSize = MaxPeers) :=
      ⟨le_trans (AddrSet.removeAddr_len_le _ _) hi.1, hi.2⟩
    cases hf : c.forwardAddr with
    | none =>
      simp only [Gossip.manageCase, hf, Option.some.injEq] at h
      subst h
      exact hrem
    | some f =>
      simp only [Gossip.manageCase, hf, Option.some.injEq] at h
      subst h
      exact Gossip.startClient_inv _ f hrem
  | checkTimeout =>
    unfold Gossip.manageCase at h
    cases hH : g.maxToleratedHops ceilLogRatio now with
    | none => simp [hH] at h
    | some H =>
      simp only [hH] at h
      split at h
      · split at h
        · cases hs : (g.filterExtant (g.is.distant H)).selectRandom r with
          | none => simp [hs] at h
          | some a =>
            simp only [hs, Option.some.injEq] at h
            subst h
            exact Gossip.startClient_inv g a hi
        · cases hco : g.connectedOutgoing with
          | none => simp [hco] at h
          | some connected =>
            simp only [hco] at h
            cases hl : g.is.leastUseful connected with
            | none =>
              simp only [hl, Option.some.injEq] at h
              subst h
              exact hi
            | some v =>
              simp only [hl] at h
              rw [(Gossip.closeClient_outgoing g g1 v h).1]
              exact hi
      · simp only [Option.some.injEq] at h
        subst h
        exact hi

theorem Reachable.outgoing_inv {g : Gossip} (h : Reachable g) :
    g.outgoing.len ≤ g.outgoing.maxSize ∧ g.outgoing.maxSize = MaxPeers := by
  induction h with
  | new addr => exact ⟨Nat.zero_le _, rfl⟩
  | setBootstrap bs _ ih => exact ih
  | @parse g0 g1 split resolve flag _ hp ih =>
    unfold Gossip.parseBootstrapAddresses at hp
    simp only at hp
    split at hp
    · simp at hp
    · simp only [Option.some.injEq] at hp
      subst hp
      exact ih
  | @bootstrap g0 g1 now r b _ hb ih =>
    unfold Gossip.bootstrapIter at hb
    split at hb
    · simp only [Option.some.injEq, Prod.mk.injEq] at hb
      rw [← hb.1]; exact ih
    · simp only at hb
      split at hb
      · split at hb
        · cases hs : (g0.filterExtant g0.bootstraps).selectRandom r with
          | none => simp [hs] at hb
          | some a =>
            simp only [hs, Option.some.injEq, Prod.mk.injEq] at hb
            rw [← hb.1]
            exact Gossip.startClient_inv g0 a ih
        · simp only [Option.some.injEq, Prod.mk.injEq] at hb
          rw [← hb.1]; exact ih
      · simp only [Option.some.injEq, Prod.mk.injEq] at hb
        rw [← hb.1]; exact ih
  | @manage g0 g1 ceilLogRatio now r ev b _ hm ih =>
    unfold Gossip.manageIter at hm
    cases hc : g0.manageCase ceilLogRatio now r ev with
    | none => simp [hc] at hm
    | some gc =>
      simp only [hc, Option.some.injEq, Prod.mk.injEq] at hm
      rw [← hm.1, (Gossip.stallCheck_fields gc now).1]
      exact Gossip.manageCase_inv ceilLogRatio g0 gc now r ev hc ih
  | startClient addr _ ih => exact Gossip.startClient_inv _ addr ih
  | @closeClient g0 g1 addr _ hc ih =>
    rw [(Gossip.closeClient_outgoing g0 g1 addr hc).1]
    exact ih
  | @close g0 g1 ch _ hc ih =>
    rw [Gossip.Close_outgoing g0 g1 ch hc]
    exact ih
  | env is1 incoming1 handle _ ih => exact ih

/-- C8: in every state reachable from `New` by `SetBootstrap`,
`parseBootstrapAddresses`, bootstrap iterations, manage events (disconnects,
with or without a forwarding address, and ticks), `startClient`,
`closeClient`, `Close` and changes made by the other goroutines, the outgoing
set has at most `MaxPeers = 10` members. -/
theorem reachable_outgoing_le_MaxPeers (g : Gossip) (h : Reachable g) :
    g.outgoing.len ≤ MaxPeers ∧ MaxPeers = 10 := by
  have hi := Reachable.outgoing_inv h
  exact ⟨hi.2 ▸ hi.1, rfl⟩

theorem Reachable.foldl_startClient (l : List Addr) (g : Gossip) (h : Reachable g) :
    Reachable (l.foldl (fun g a => g.startClient a) g) := by
  induction l generalizing g with
  | nil => exact h
  | cons a rest ih => exact ih _ (Reachable.startClient a h)

/-- C8, witness: after eleven `startClient` calls on a new instance the
outgoing set has ten members. -/
theorem reachable_outgoing_le_MaxPeers_witness :
    Reachable elevenClients ∧ elevenClients.outgoing.len = 10 ∧
      (elevenClients.outgoing.len ≤ MaxPeers ∧ MaxPeers = 10) :=
  ⟨Reachable.startClient "x:1" (Reachable.foldl_startClient tenPeers _ (Reachable.new "self:1")),
    by decide,
    reachable_outgoing_le_MaxPeers elevenClients
      (Reachable.startClient "x:1"
        (Reachable.foldl_startClient tenPeers _ (Reachable.new "self:1")))⟩

/-- C9, the code at the failing input: on a new instance `startClient` and
then `closeClient` for the same address leave the address in the outgoing set
without a client-map entry, and a `Close()` on that state dereferences the
missing entry. -/
theorem closeClient_leaves_outgoing :
    (((New "self:1").startClient "a:1").closeClient "a:1").map
        (fun g => (g.outgoing.hasAddr "a:1", g.clients.get "a:1", g.outgoing.len, g.clients.length))
      = some (true, none, 1, 0) ∧
    (((New "self:1").startClient "a:1").closeClient "a:1").bind
        (fun g => g.Close) = none := by
  decide

/-! ## The exit of the manage loop -/

theorem Gossip.manageIter_leave_iff (ceilLogRatio : Int → Nat) (g g1 : Gossip) (now : Int)
    (r : Nat) (ev : ManageEvent) (leave : Bool)
    (h : g.manageIter ceilLogRatio now r ev = some (g1, leave)) :
    leave = true ↔ g1.closed = true ∧ g1.outgoing.len = 0 := by
  unfold Gossip.manageIter at h
  cases hc : g.manageCase ceilLogRatio now r ev with
  | none => simp [hc] at h
  | some gc =>
    simp only [hc, Option.some.injEq, Prod.mk.injEq] at h
    obtain ⟨hg, hl⟩ := h
    subst hg
    rw [← hl]
    simp

theorem Gossip.closeAll_exited (l : List Addr) (g g1 : Gossip) (h : g.closeAll l = some g1) :
    g1.exited = g.exited := by
  induction l generalizing g with
  | nil =>
    simp only [Gossip.closeAll, Option.some.injEq] at h
    rw [h]
  | cons a rest ih =>
    unfold Gossip.closeAll at h
    cases hc : g.closeClient a with
    | none => simp [hc] at h
    | some g2 =>
      simp only [hc] at h
      rw [ih g2 h, (Gossip.closeClient_outgoing g g2 a hc).2.2.2.2.2.1]

theorem Gossip.Close_exited (g g1 : Gossip) (ch : Option (List (Option String)))
    (h : g.Close = some (g1, ch)) : g1.exited = g.exited ∧ ch = g.exited := by
  unfold Gossip.Close at h
  simp only at h
  split at h
  · simp at h
  · rename_i g2 hg2
    simp only [Option.some.injEq, Prod.mk.injEq] at h
    have h2 := Gossip.closeAll_exited _ _ _ hg2
    rw [← h.1, ← h.2]
    exact ⟨h2, h2⟩

theorem Gossip.manageCase_exited (ceilLogRatio : Int → Nat) (g g1 : Gossip) (now : Int) (r : Nat)
    (ev : ManageEvent) (h : g.manageCase ceilLogRatio now r ev = some g1) :
    g1.exited = g.exited := by
  cases ev with
  | disconnected c =>
    cases hf : c.forwardAddr with
    | none =>
      simp only [Gossip.manageCase, hf, Option.some.injEq] at h
      subst h
      rfl
    | some f =>
      simp only [Gossip.manageCase, hf, Option.some.injEq] at h
      subst h
      rfl
  | checkTimeout =>
    unfold Gossip.manageCase at h
    cases hH : g.maxToleratedHops ceilLogRatio now with
    | none => simp [hH] at h
    | some H =>
      simp only [hH] at h
      split at h
      · split at h
        · cases hs : (g.filterExtant (g.is.distant H)).selectRandom r with
          | none => simp [hs] at h
          | some a =>
            simp only [hs, Option.some.injEq] at h
            subst h
            rfl
        · cases hco : g.connectedOutgoing with
          | none => simp [hco] at h
          | some connected =>
            simp only [hco] at h
            cases hl : g.is.leastUseful connected with
            | none =>
              simp only [hl, Option.some.injEq] at h
              subst h
              rfl
            | some v =>
              simp only [hl] at h
              exact (Gossip.closeClient_outgoing g g1 v h).2.2.2.2.2.1
      · simp only [Option.some.injEq] at h
        subst h
        rfl

/-- No step of the instance makes the exit channel: in every reachable state
it is the nil channel `New` left, and the send after the manage loop blocks. -/
theorem Reachable.exited_nil {g : Gossip} (h : Reachable g) :
    g.exited = none ∧ g.signalExit = none := by
  have hex : g.exited = none := by
    induction h with
    | new addr => rfl
    | setBootstrap bs _ ih => exact ih
    | @parse g0 g1 split resolve flag _ hp ih =>
      unfold Gossip.parseBootstrapAddresses at hp
      simp only at hp
      split at hp
      · simp at hp
      · simp only [Option.some.injEq] at hp
        subst hp
        exact ih
    | @bootstrap g0 g1 now r b _ hb ih =>
      unfold Gossip.bootstrapIter at hb
      split at hb
      · simp only [Option.some.injEq, Prod.mk.injEq] at hb
        rw [← hb.1]; exact ih
      · simp only at hb
        split at hb
        · split at hb
          · cases hs : (g0.filterExtant g0.bootstraps).selectRandom r with
            | none => simp [hs] at hb
            | some a =>
              simp only [hs, Option.some.injEq, Prod.mk.injEq] at hb
              rw [← hb.1]
              exact ih
          · simp only [Option.some.injEq, Prod.mk.injEq] at hb
            rw [← hb.1]; exact ih
        · simp only [Option.some.injEq, Prod.mk.injEq] at hb
          rw [← hb.1]; exact ih
    | @manage g0 g1 ceilLogRatio now r ev b _ hm ih =>
      unfold Gossip.manageIter at hm
      cases hc : g0.manageCase ceilLogRatio now r ev with
      | none => simp [hc] at hm
      | some gc =>
        simp only [hc, Option.some.injEq, Prod.mk.injEq] at hm
        rw [← hm.1, (Gossip.stallCheck_fields gc now).2.2.2.2.2.2,
          Gossip.manageCase_exited ceilLogRatio g0 gc now r ev hc]
        exact ih
    | startClient addr _ ih => exact ih
    | @closeClient g0 g1 addr _ hc ih =>
      rw [(Gossip.closeClient_outgoing g0 g1 addr hc).2.2.2.2.2.1]
      exact ih
    | @close g0 g1 ch _ hc ih =>
      rw [(Gossip.Close_exited g0 g1 ch hc).1]
      exact ih
    | env is1 incoming1 handle _ ih => exact ih
  exact ⟨hex, by simp [Gossip.signalExit, hex]⟩

/-- C11, the code at the failing input: `New` leaves the exit channel nil.
After `Close()` on a new instance the channel returned is that nil channel;
the next event makes the manage loop leave its loop (closed, no outgoing
client); the send `g.exited <- nil` that follows is a send on a nil channel,
which blocks forever, so no value is emitted. -/
theorem exit_channel_not_made :
    (New "self:1").exited = none ∧
    (New "self:1").Close.map (fun p => (p.2, p.1.closed, p.1.outgoing.len))
      = some (none, true, 0) ∧
    ((New "self:1").Close.bind
        (fun p => p.1.manageIter (fun _ => 3) 0 0 ManageEvent.checkTimeout)).map (fun q => q.2)
      = some true ∧
    ((New "self:1").Close.bind
        (fun p => p.1.manageIter (fun _ => 3) 0 0 ManageEvent.checkTimeout)).bind
        (fun q => q.1.signalExit)
      = none := by
  decide

end gossip
